import Mathlib

/-!
Verification development for the CrateBatch DJ-library manager.

The definitions below are a shallow embedding of the TypeScript sources
(`src/services/parser.ts`, `src/services/ai.ts`, `src/App.tsx`,
`src/services/utils.ts`).  JS strings are modelled as Lean `String`
(sequences of Unicode scalar values), JS numbers that hold integers as
`Nat`/`Int`, fallible operations as `Option`, and in-place mutation as
functions returning the updated value.
-/

namespace CrateBatch

/-- Analysis record mirroring the TypeScript `AIAnalysis` interface
(`src/types.ts`).  The optional `year` field is modelled as a `String`
with `""` for "absent": every use site in the sources only tests JS
truthiness or compares against string literals, and both `undefined`
and `""` are falsy. -/
structure AIAnalysis where
  vibe : String
  genre : String
  situation : String
  year : String := ""
  hashtags : Option String := none
deriving Repr, DecidableEq

/-- Node of the fast-xml-parser `preserveOrder` document shape: a JS
object with one tag key mapping to the child list, and an optional
`:@` key holding the attribute object.  Attribute objects are modelled
as insertion-ordered association lists; the `:@` key itself is absent
(`none`) on nodes parsed without attributes, matching the guards
`if (rootNode[':@'])` and `!track._rawNode[':@']` in the sources. -/
inductive XNode where
  | mk (tag : String) (attrs : Option (List (String × String))) (children : List XNode)
deriving Repr

/-- Tag key of a node. -/
def XNode.tag : XNode → String
  | .mk t _ _ => t

/-- Attribute object of a node (the `:@` key), if present. -/
def XNode.attrs : XNode → Option (List (String × String))
  | .mk _ a _ => a

/-- Child list of a node. -/
def XNode.children : XNode → List XNode
  | .mk _ _ c => c

mutual

/-- Structural equality test for `XNode`. -/
def XNode.beq : XNode → XNode → Bool
  | .mk t a c, .mk t' a' c' => t == t' && a == a' && XNode.beqList c c'

/-- Structural equality test for lists of `XNode`. -/
def XNode.beqList : List XNode → List XNode → Bool
  | [], [] => true
  | x :: xs, y :: ys => XNode.beq x y && XNode.beqList xs ys
  | _, _ => false

end

mutual

theorem XNode.beq_iff : ∀ x y : XNode, XNode.beq x y = true ↔ x = y
  | .mk t a c, .mk t' a' c' => by
    simp only [XNode.beq, Bool.and_eq_true, beq_iff_eq, XNode.mk.injEq]
    constructor
    · rintro ⟨⟨h1, h2⟩, h3⟩
      exact ⟨h1, h2, (XNode.beqList_iff c c').mp h3⟩
    · rintro ⟨h1, h2, h3⟩
      exact ⟨⟨h1, h2⟩, (XNode.beqList_iff c c').mpr h3⟩

theorem XNode.beqList_iff : ∀ xs ys : List XNode, XNode.beqList xs ys = true ↔ xs = ys
  | [], [] => by simp [XNode.beqList]
  | [], _ :: _ => by simp [XNode.beqList]
  | _ :: _, [] => by simp [XNode.beqList]
  | x :: xs, y :: ys => by
    simp only [XNode.beqList, Bool.and_eq_true, List.cons.injEq]
    rw [XNode.beq_iff x y, XNode.beqList_iff xs ys]

end

instance : DecidableEq XNode := fun x y =>
  decidable_of_iff (XNode.beq x y = true) (XNode.beq_iff x y)

/-- Projection of a track row mirroring the TypeScript `RekordboxTrack`
interface (`src/types.ts`); `_rawNode` is the weak reference back into
the parsed tree. -/
structure Track where
  TrackID : String
  Name : String
  Artist : String
  AverageBpm : String := "0"
  Tonality : String := ""
  Year : String := ""
  TotalTime : String := "0"
  Comments : String := ""
  Genre : String := ""
  Energy : String := ""
  Analysis : Option AIAnalysis := none
  _rawNode : Option XNode := none
deriving Repr, DecidableEq

/-- First-match lookup, modelling JS `obj[key]` on an attribute object. -/
def getAttr : List (String × String) → String → Option String
  | [], _ => none
  | (k, v) :: rest, key => if k = key then some v else getAttr rest key

/-- JS assignment `obj[key] = v` on an attribute object: overwrite the
existing entry in place (key order preserved), or append a new entry. -/
def setAttr : List (String × String) → String → String → List (String × String)
  | [], key, v => [(key, v)]
  | (k, w) :: rest, key, v =>
    if k = key then (key, v) :: rest else (k, w) :: setAttr rest key v

theorem getAttr_setAttr_self (m : List (String × String)) (k v : String) :
    getAttr (setAttr m k v) k = some v := by
  induction m with
  | nil => simp [setAttr, getAttr]
  | cons hd tl ih =>
    obtain ⟨k', v'⟩ := hd
    by_cases h : k' = k <;> simp [setAttr, getAttr, h, ih]

theorem getAttr_setAttr_ne (m : List (String × String)) (k v k' : String) (h : k' ≠ k) :
    getAttr (setAttr m k v) k' = getAttr m k' := by
  induction m with
  | nil => simp [setAttr, getAttr, Ne.symm h]
  | cons hd tl ih =>
    obtain ⟨k0, v0⟩ := hd
    by_cases h0 : k0 = k
    · subst h0
      simp [setAttr, getAttr, Ne.symm h]
    · simp only [setAttr, if_neg h0]
      by_cases h1 : k0 = k' <;> simp [getAttr, h1, ih]

/-- Enrichment modes of `updateTrackNode` / `generateTagsBatch`. -/
inductive EnrichMode where
  | full
  | missing_genre
  | missing_year
deriving Repr, DecidableEq

/-- Whitespace class of the JS regex `\s` restricted to ASCII (space,
tab, line feed, carriage return, vertical tab, form feed); the
sources only ever strip whitespace out of vocabulary tags and paths. -/
def isJsWs (c : Char) : Bool :=
  c = ' ' || c = '\t' || c = '\n' || c = '\r' || c.toNat = 11 || c.toNat = 12

/-- JS `str.replace(/\s+/g, '')`: drop every whitespace character. -/
def stripWs (s : String) : String :=
  String.mk (s.toList.filter (fun c => !isJsWs c))

/-- Helper `toHashtag` inside `generateHashtags` (parser.ts line 17). -/
def toHashtag (s : String) : String :=
  if s = "" then "" else "#" ++ stripWs s

/-- Embedding of `generateHashtags` (parser.ts lines 16-24). -/
def generateHashtags (a : AIAnalysis) : String :=
  let parts := [if a.vibe ≠ "" then toHashtag a.vibe else "",
                if a.genre ≠ "" then toHashtag a.genre else "",
                if a.situation ≠ "" then toHashtag a.situation else ""]
  String.intercalate " " (parts.filter (· ≠ ""))

/-- Year write of `updateTrackNode` shared by `missing_year` and `full`
modes (parser.ts lines 86-92 and 103-108): set `@_Year` only when the
current value is absent, `""` or the sentinel `"0"`, and only when the
analysis carries a truthy year. -/
def updateYearAttr (attrs : List (String × String)) (year : String) :
    List (String × String) :=
  if year ≠ "" then
    match getAttr attrs "@_Year" with
    | none => setAttr attrs "@_Year" year
    | some y => if y = "" ∨ y = "0" then setAttr attrs "@_Year" year else attrs
  else attrs

/-- JS `String.prototype.trim`, restricted to the ASCII whitespace class
(the only characters the sources ever produce around genre values). -/
def jsTrim (s : String) : String :=
  String.mk (((s.toList.dropWhile (fun c => isJsWs c)).reverse.dropWhile
    (fun c => isJsWs c)).reverse)

/-- Genre write of `updateTrackNode` in `full` mode (parser.ts lines
112-117): fill `@_Genre` only when it is absent, empty or
whitespace-only, and only when the analysis carries a truthy genre. -/
def updateGenreAttrFull (attrs : List (String × String)) (genre : String) :
    List (String × String) :=
  if genre ≠ "" then
    match getAttr attrs "@_Genre" with
    | none => setAttr attrs "@_Genre" genre
    | some g => if jsTrim g = "" then setAttr attrs "@_Genre" genre else attrs
  else attrs

/-- Attribute rewrite performed by `updateTrackNode` (parser.ts lines
76-118) for each mode, acting on the `:@` object of the raw node.  In
`full` mode the source deliberately no longer appends hashtags to
`@_Comments` (comment at lines 96-98); it only fills `@_Year` when
empty/`"0"` and `@_Genre` when empty or whitespace-only. -/
def updateAttrs (attrs : List (String × String)) (analysis : AIAnalysis)
    (mode : EnrichMode) : List (String × String) :=
  match mode with
  | .missing_genre =>
    if analysis.genre ≠ "" then setAttr attrs "@_Genre" analysis.genre else attrs
  | .missing_year => updateYearAttr attrs analysis.year
  | .full => updateGenreAttrFull (updateYearAttr attrs analysis.year) analysis.genre

/-- Closed form of `updateYearAttr`: the year is written exactly when the
analysis year is truthy and the current `@_Year` is absent, empty or `"0"`. -/
theorem updateYearAttr_eq (attrs : List (String × String)) (year : String) :
    updateYearAttr attrs year =
      if year ≠ "" ∧ (getAttr attrs "@_Year" = none ∨ getAttr attrs "@_Year" = some "" ∨
          getAttr attrs "@_Year" = some "0")
      then setAttr attrs "@_Year" year else attrs := by
  unfold updateYearAttr
  rcases h : getAttr attrs "@_Year" with _ | y <;> by_cases hy : year = "" <;>
    simp [h, hy] <;> by_cases h0 : y = "" <;> by_cases h1 : y = "0" <;> simp [h0, h1]

theorem getAttr_updateYearAttr_ne (attrs : List (String × String)) (year k : String)
    (hk : k ≠ "@_Year") :
    getAttr (updateYearAttr attrs year) k = getAttr attrs k := by
  rw [updateYearAttr_eq]
  split
  · exact getAttr_setAttr_ne _ _ _ _ hk
  · rfl

/-- Embedding of `updateTrackNode` (parser.ts lines 71-119).  The JS
function mutates `track._rawNode[':@']` in place and returns
`undefined`; we model it as returning the track with the updated raw
node.  It bails out untouched when the raw node or its attribute
object is missing. -/
def updateTrackNode (track : Track) (analysis : AIAnalysis) (mode : EnrichMode) :
    Track :=
  match track._rawNode with
  | none => track
  | some n =>
    match n.attrs with
    | none => track
    | some attrs =>
      { track with
        _rawNode := some (XNode.mk n.tag (some (updateAttrs attrs analysis mode)) n.children) }

/-- Helper: result of `updateTrackNode` when the raw node and its
attribute object are present. -/
theorem updateTrackNode_of_attached (track : Track) (analysis : AIAnalysis)
    (mode : EnrichMode) (n : XNode) (attrs : List (String × String))
    (hn : track._rawNode = some n) (ha : n.attrs = some attrs) :
    updateTrackNode track analysis mode =
      { track with
        _rawNode := some (XNode.mk n.tag (some (updateAttrs attrs analysis mode)) n.children) } := by
  obtain ⟨t, a, c⟩ := n
  simp only [XNode.attrs] at ha
  subst ha
  simp [updateTrackNode, hn, XNode.attrs, XNode.tag, XNode.children]

/-- C2: in `missing_year` mode `updateTrackNode` writes `@_Year` only when
the existing value is absent, `""` or the sentinel `"0"`; a present
non-sentinel year is left unchanged, and no attribute other than
`@_Year` is modified. -/
theorem updateTrackNode_missing_year_spec (track : Track) (analysis : AIAnalysis)
    (n : XNode) (attrs : List (String × String))
    (hn : track._rawNode = some n) (ha : n.attrs = some attrs) :
    ∃ attrs',
      updateTrackNode track analysis .missing_year =
        { track with _rawNode := some (XNode.mk n.tag (some attrs') n.children) }
      ∧ (∀ k, k ≠ "@_Year" → getAttr attrs' k = getAttr attrs k)
      ∧ (∀ y, getAttr attrs "@_Year" = some y → y ≠ "" → y ≠ "0" → attrs' = attrs)
      ∧ (getAttr attrs' "@_Year" ≠ getAttr attrs "@_Year" →
          (getAttr attrs "@_Year" = none ∨ getAttr attrs "@_Year" = some "" ∨
            getAttr attrs "@_Year" = some "0")
          ∧ getAttr attrs' "@_Year" = some analysis.year) := by
  refine ⟨updateAttrs attrs analysis .missing_year,
    updateTrackNode_of_attached track analysis .missing_year n attrs hn ha, ?_, ?_, ?_⟩
  · intro k hk
    exact getAttr_updateYearAttr_ne attrs analysis.year k hk
  · intro y hy h1 h2
    simp only [updateAttrs, updateYearAttr_eq, hy]
    simp [h1, h2]
  · intro hne
    simp only [updateAttrs, updateYearAttr_eq] at hne ⊢
    by_cases hc : analysis.year ≠ "" ∧ (getAttr attrs "@_Year" = none ∨
        getAttr attrs "@_Year" = some "" ∨ getAttr attrs "@_Year" = some "0")
    · exact ⟨hc.2, by simp [hc, getAttr_setAttr_self]⟩
    · simp [hc] at hne

def c2Attrs : List (String × String) :=
  [("@_Genre", "House"), ("@_Year", "1999"), ("@_Comments", "keep me")]

def c2Node : XNode := XNode.mk "TRACK" (some c2Attrs) []

def c2Track : Track :=
  { TrackID := "42", Name := "Song", Artist := "Artist", _rawNode := some c2Node }

def c2Analysis : AIAnalysis :=
  { vibe := "Unknown", genre := "Unknown", situation := "Unknown", year := "2005" }

/-- Witness for `updateTrackNode_missing_year_spec` at a concrete track
whose year is already `"1999"`. -/
theorem updateTrackNode_missing_year_spec_witness :
    c2Track._rawNode = some c2Node ∧ c2Node.attrs = some c2Attrs ∧
    ∃ attrs',
      updateTrackNode c2Track c2Analysis .missing_year =
        { c2Track with _rawNode := some (XNode.mk c2Node.tag (some attrs') c2Node.children) }
      ∧ (∀ k, k ≠ "@_Year" → getAttr attrs' k = getAttr c2Attrs k)
      ∧ (∀ y, getAttr c2Attrs "@_Year" = some y → y ≠ "" → y ≠ "0" → attrs' = c2Attrs)
      ∧ (getAttr attrs' "@_Year" ≠ getAttr c2Attrs "@_Year" →
          (getAttr c2Attrs "@_Year" = none ∨ getAttr c2Attrs "@_Year" = some "" ∨
            getAttr c2Attrs "@_Year" = some "0")
          ∧ getAttr attrs' "@_Year" = some c2Analysis.year) :=
  ⟨rfl, rfl, updateTrackNode_missing_year_spec c2Track c2Analysis c2Node c2Attrs rfl rfl⟩

/-- C10: a mutation applied to a track whose raw node is absent, or whose
raw node carries no attribute object, is silently dropped: the track
(and hence the document) is returned unchanged for every analysis and
mode. -/
theorem updateTrackNode_detached_noop (track : Track) (analysis : AIAnalysis)
    (mode : EnrichMode)
    (h : track._rawNode = none ∨ ∃ n, track._rawNode = some n ∧ n.attrs = none) :
    updateTrackNode track analysis mode = track := by
  rcases h with h | ⟨n, hn, ha⟩
  · simp [updateTrackNode, h]
  · obtain ⟨t, a, c⟩ := n
    simp only [XNode.attrs] at ha
    subst ha
    simp [updateTrackNode, hn, XNode.attrs]

/-- Witness for `updateTrackNode_detached_noop` on a concrete detached
track. -/
theorem updateTrackNode_detached_noop_witness :
    (({ TrackID := "7", Name := "N", Artist := "A" } : Track)._rawNode = none ∨
      ∃ n, ({ TrackID := "7", Name := "N", Artist := "A" } : Track)._rawNode = some n ∧
        n.attrs = none) ∧
    updateTrackNode { TrackID := "7", Name := "N", Artist := "A" }
        { vibe := "Dark", genre := "Trap", situation := "Peak Hour", year := "2020" }
        .full =
      { TrackID := "7", Name := "N", Artist := "A" } :=
  ⟨Or.inl rfl,
    updateTrackNode_detached_noop { TrackID := "7", Name := "N", Artist := "A" }
      { vibe := "Dark", genre := "Trap", situation := "Peak Hour", year := "2020" }
      .full (Or.inl rfl)⟩

/-- Closed form of `updateGenreAttrFull`. -/
theorem updateGenreAttrFull_eq (attrs : List (String × String)) (genre : String) :
    updateGenreAttrFull attrs genre =
      if genre ≠ "" ∧ (getAttr attrs "@_Genre" = none ∨
          ∃ g, getAttr attrs "@_Genre" = some g ∧ jsTrim g = "")
      then setAttr attrs "@_Genre" genre else attrs := by
  unfold updateGenreAttrFull
  rcases h : getAttr attrs "@_Genre" with _ | g <;> by_cases hg : genre = "" <;>
    simp [h, hg] <;> by_cases h0 : jsTrim g = "" <;> simp [h0]

theorem getAttr_updateGenreAttrFull_ne (attrs : List (String × String))
    (genre k : String) (hk : k ≠ "@_Genre") :
    getAttr (updateGenreAttrFull attrs genre) k = getAttr attrs k := by
  rw [updateGenreAttrFull_eq]
  split
  · exact getAttr_setAttr_ne _ _ _ _ hk
  · rfl

/-- C3 (amended): in `full` mode `updateTrackNode` does not touch
`@_Comments` (or any attribute other than `@_Year` and `@_Genre`); it
fills `@_Year` only when absent/empty/`"0"` and `@_Genre` only when
absent/empty/whitespace-only, preserving user-authored metadata. -/
theorem updateTrackNode_full_spec (track : Track) (analysis : AIAnalysis)
    (n : XNode) (attrs : List (String × String))
    (hn : track._rawNode = some n) (ha : n.attrs = some attrs) :
    ∃ attrs',
      updateTrackNode track analysis .full =
        { track with _rawNode := some (XNode.mk n.tag (some attrs') n.children) }
      ∧ getAttr attrs' "@_Comments" = getAttr attrs "@_Comments"
      ∧ (∀ k, k ≠ "@_Year" → k ≠ "@_Genre" → getAttr attrs' k = getAttr attrs k)
      ∧ (∀ y, getAttr attrs "@_Year" = some y → y ≠ "" → y ≠ "0" →
          getAttr attrs' "@_Year" = some y)
      ∧ (∀ g, getAttr attrs "@_Genre" = some g → jsTrim g ≠ "" →
          getAttr attrs' "@_Genre" = some g)
      ∧ (getAttr attrs' "@_Year" ≠ getAttr attrs "@_Year" →
          (getAttr attrs "@_Year" = none ∨ getAttr attrs "@_Year" = some "" ∨
            getAttr attrs "@_Year" = some "0")
          ∧ getAttr attrs' "@_Year" = some analysis.year)
      ∧ (getAttr attrs' "@_Genre" ≠ getAttr attrs "@_Genre" →
          (getAttr attrs "@_Genre" = none ∨
            ∃ g, getAttr attrs "@_Genre" = some g ∧ jsTrim g = "")
          ∧ getAttr attrs' "@_Genre" = some analysis.genre) := by
  have hy : ∀ k, k ≠ "@_Year" →
      getAttr (updateYearAttr attrs analysis.year) k = getAttr attrs k :=
    fun k hk => getAttr_updateYearAttr_ne attrs analysis.year k hk
  refine ⟨updateAttrs attrs analysis .full,
    updateTrackNode_of_attached track analysis .full n attrs hn ha, ?_, ?_, ?_, ?_, ?_, ?_⟩
  · rw [show updateAttrs attrs analysis .full =
      updateGenreAttrFull (updateYearAttr attrs analysis.year) analysis.genre from rfl,
      getAttr_updateGenreAttrFull_ne _ _ _ (by decide)]
    exact hy _ (by decide)
  · intro k hk1 hk2
    rw [show updateAttrs attrs analysis .full =
      updateGenreAttrFull (updateYearAttr attrs analysis.year) analysis.genre from rfl,
      getAttr_updateGenreAttrFull_ne _ _ _ hk2]
    exact hy _ hk1
  · intro y h1 h2 h3
    rw [show updateAttrs attrs analysis .full =
      updateGenreAttrFull (updateYearAttr attrs analysis.year) analysis.genre from rfl,
      getAttr_updateGenreAttrFull_ne _ _ _ (by decide), updateYearAttr_eq, h1]
    simp [h2, h3, h1]
  · intro g h1 h2
    rw [show updateAttrs attrs analysis .full =
      updateGenreAttrFull (updateYearAttr attrs analysis.year) analysis.genre from rfl,
      updateGenreAttrFull_eq]
    have hg : getAttr (updateYearAttr attrs analysis.year) "@_Genre" = some g := by
      rw [hy _ (by decide)]; exact h1
    rw [hg]
    split
    · rename_i hc
      rcases hc.2 with h | ⟨g', hg', htr⟩
      · exact absurd h (by simp)
      · exact absurd htr (by simp_all)
    · exact hg
  · intro hne
    rw [show updateAttrs attrs analysis .full =
      updateGenreAttrFull (updateYearAttr attrs analysis.year) analysis.genre from rfl,
      getAttr_updateGenreAttrFull_ne _ _ _ (by decide)] at hne ⊢
    rw [updateYearAttr_eq] at hne ⊢
    by_cases hc : analysis.year ≠ "" ∧ (getAttr attrs "@_Year" = none ∨
        getAttr attrs "@_Year" = some "" ∨ getAttr attrs "@_Year" = some "0")
    · exact ⟨hc.2, by simp [hc, getAttr_setAttr_self]⟩
    · simp [hc] at hne
  · intro hne
    rw [show updateAttrs attrs analysis .full =
      updateGenreAttrFull (updateYearAttr attrs analysis.year) analysis.genre from rfl,
      updateGenreAttrFull_eq] at hne ⊢
    have hgy : getAttr (updateYearAttr attrs analysis.year) "@_Genre" =
        getAttr attrs "@_Genre" := hy _ (by decide)
    rw [hgy] at hne ⊢
    by_cases hc : analysis.genre ≠ "" ∧ (getAttr attrs "@_Genre" = none ∨
        ∃ g, getAttr attrs "@_Genre" = some g ∧ jsTrim g = "")
    · exact ⟨hc.2, by rw [if_pos hc]; exact getAttr_setAttr_self _ _ _⟩
    · rw [if_neg hc] at hne
      exact absurd hgy hne

def c3Attrs : List (String × String) :=
  [("@_Comments", "hello"), ("@_Genre", "House"), ("@_Year", "1999")]

def c3Node : XNode := XNode.mk "TRACK" (some c3Attrs) []

def c3Track : Track :=
  { TrackID := "9", Name := "Song", Artist := "Artist", Comments := "hello",
    Genre := "House", Year := "1999", _rawNode := some c3Node }

def c3Analysis : AIAnalysis :=
  { vibe := "Dark", genre := "Trap", situation := "After Party", year := "2003" }

/-- Counterexample to C3 as stated: in `full` mode the code does NOT
append the derived hashtag string to `@_Comments`.  For a track whose
comments are `"hello"` and an analysis whose derived tag string is the
non-empty `"#Dark #Trap #AfterParty"`, `updateTrackNode` leaves the
track (in particular `@_Comments`) completely unchanged. -/
theorem updateTrackNode_full_comments_counterexample :
    generateHashtags c3Analysis = "#Dark #Trap #AfterParty"
    ∧ updateTrackNode c3Track c3Analysis .full = c3Track
    ∧ getAttr c3Attrs "@_Comments" = some "hello" := by
  refine ⟨by decide, ?_, by decide⟩
  decide

/-- Witness for `updateTrackNode_full_spec` at a concrete fully-tagged
track. -/
theorem updateTrackNode_full_spec_witness :
    c2Track._rawNode = some c2Node ∧ c2Node.attrs = some c2Attrs ∧
    ∃ attrs',
      updateTrackNode c2Track c3Analysis .full =
        { c2Track with _rawNode := some (XNode.mk c2Node.tag (some attrs') c2Node.children) }
      ∧ getAttr attrs' "@_Comments" = getAttr c2Attrs "@_Comments"
      ∧ (∀ k, k ≠ "@_Year" → k ≠ "@_Genre" → getAttr attrs' k = getAttr c2Attrs k)
      ∧ (∀ y, getAttr c2Attrs "@_Year" = some y → y ≠ "" → y ≠ "0" →
          getAttr attrs' "@_Year" = some y)
      ∧ (∀ g, getAttr c2Attrs "@_Genre" = some g → jsTrim g ≠ "" →
          getAttr attrs' "@_Genre" = some g)
      ∧ (getAttr attrs' "@_Year" ≠ getAttr c2Attrs "@_Year" →
          (getAttr c2Attrs "@_Year" = none ∨ getAttr c2Attrs "@_Year" = some "" ∨
            getAttr c2Attrs "@_Year" = some "0")
          ∧ getAttr attrs' "@_Year" = some c3Analysis.year)
      ∧ (getAttr attrs' "@_Genre" ≠ getAttr c2Attrs "@_Genre" →
          (getAttr c2Attrs "@_Genre" = none ∨
            ∃ g, getAttr c2Attrs "@_Genre" = some g ∧ jsTrim g = "")
          ∧ getAttr attrs' "@_Genre" = some c3Analysis.genre) :=
  ⟨rfl, rfl, updateTrackNode_full_spec c2Track c3Analysis c2Node c2Attrs rfl rfl⟩

/-! URI machinery backing `formatRekordboxPath` (parser.ts lines 121-153):
shallow embedding of the ECMAScript `encodeURI` / `decodeURIComponent`
pair on sequences of Unicode scalar values. -/

/-- Uppercase hex digit, as emitted by the ECMAScript Encode operation. -/
def hexChar (n : Nat) : Char :=
  if n < 10 then Char.ofNat (48 + n) else Char.ofNat (55 + n)

/-- Hex digit test (both cases, as accepted by the Decode operation). -/
def isHexDigit (c : Char) : Bool :=
  ('0' ≤ c && c ≤ '9') || ('A' ≤ c && c ≤ 'F') || ('a' ≤ c && c ≤ 'f')

/-- Value of a hex digit. -/
def hexVal (c : Char) : Nat :=
  if '0' ≤ c && c ≤ '9' then c.toNat - 48
  else if 'A' ≤ c && c ≤ 'F' then c.toNat - 55
  else c.toNat - 87

/-- UTF-8 encoding of a Unicode scalar value. -/
def utf8Bytes (v : Nat) : List Nat :=
  if v < 0x80 then [v]
  else if v < 0x800 then [0xC0 + v / 64, 0x80 + v % 64]
  else if v < 0x10000 then [0xE0 + v / 4096, 0x80 + v / 64 % 64, 0x80 + v % 64]
  else [0xF0 + v / 262144, 0x80 + v / 4096 % 64, 0x80 + v / 64 % 64, 0x80 + v % 64]

/-- Percent-escape of one byte, `%XY` with uppercase hex. -/
def pctEncodeByte (b : Nat) : List Char :=
  ['%', hexChar (b / 16), hexChar (b % 16)]

/-- Characters `encodeURI` leaves unescaped: `uriAlpha`, `DecimalDigit`,
`uriMark` (`- _ . ! ~ * ' ( )`), `uriReserved` (`; / ? : @ & = + $ ,`)
and `#`.  Code 39 is the apostrophe. -/
def encodeURISafe (c : Char) : Bool :=
  ('A' ≤ c && c ≤ 'Z') || ('a' ≤ c && c ≤ 'z') || ('0' ≤ c && c ≤ '9') ||
  c = '-' || c = '_' || c = '.' || c = '!' || c = '~' || c = '*' || c.toNat = 39 ||
  c = '(' || c = ')' || c = ';' || c = '/' || c = '?' || c = ':' || c = '@' ||
  c = '&' || c = '=' || c = '+' || c = '$' || c = ',' || c = '#'

/-- One character under `encodeURI`: kept if in the unescaped set, else
percent-escaped UTF-8 bytes.  (Lean `Char` carries only Unicode scalar
values, so the lone-surrogate `URIError` of the JS original cannot
arise in the model.) -/
def encodeURIChar (c : Char) : List Char :=
  if encodeURISafe c then [c] else (utf8Bytes c.toNat).flatMap pctEncodeByte

/-- ECMAScript `encodeURI` on a character list. -/
def encodeURIChars (s : List Char) : List Char :=
  s.flatMap encodeURIChar

/-- Read two hex digits, returning the byte and the rest. -/
def readHex2 : List Char → Option (Nat × List Char)
  | h1 :: h2 :: rest =>
    if isHexDigit h1 && isHexDigit h2 then some (16 * hexVal h1 + hexVal h2, rest)
    else none
  | _ => none

/-- Read a `%XY` escape, returning the byte and the rest. -/
def readPct : List Char → Option (Nat × List Char)
  | c :: rest => if c = '%' then readHex2 rest else none
  | [] => none

/-- UTF-8 continuation byte test. -/
def isCont (b : Nat) : Bool :=
  0x80 ≤ b && b < 0xC0

/-- Read one percent-escaped UTF-8 continuation byte. -/
def readCont (rest : List Char) : Option (Nat × List Char) :=
  (readPct rest).bind (fun p => if isCont p.1 then some p else none)

/-- Finish decoding one UTF-8 sequence whose lead byte `b1` has already
been read; continuation bytes must themselves be `%XY` escapes.  The
checks reject overlong encodings, surrogate values and out-of-range
values, matching the `URIError` cases of the ECMAScript Decode
operation (modelled as `none`). -/
def utf8Finish (b1 : Nat) (rest : List Char) : Option (Char × List Char) :=
  if b1 < 0x80 then some (Char.ofNat b1, rest)
  else if b1 < 0xC0 then none
  else if b1 < 0xE0 then
    (readCont rest).bind (fun p =>
      let v := (b1 - 0xC0) * 64 + (p.1 - 0x80)
      if 0x80 ≤ v then some (Char.ofNat v, p.2) else none)
  else if b1 < 0xF0 then
    (readCont rest).bind (fun p =>
      (readCont p.2).bind (fun q =>
        let v := (b1 - 0xE0) * 4096 + (p.1 - 0x80) * 64 + (q.1 - 0x80)
        if 0x800 ≤ v ∧ (v < 0xD800 ∨ 0xDFFF < v) then some (Char.ofNat v, q.2)
        else none))
  else if b1 < 0xF8 then
    (readCont rest).bind (fun p =>
      (readCont p.2).bind (fun q =>
        (readCont q.2).bind (fun w =>
          let v := (b1 - 0xF0) * 262144 + (p.1 - 0x80) * 4096 +
            (q.1 - 0x80) * 64 + (w.1 - 0x80)
          if 0x10000 ≤ v ∧ v < 0x110000 then some (Char.ofNat v, w.2) else none)))
  else none

theorem readHex2_length {cs : List Char} {b : Nat} {r : List Char}
    (h : readHex2 cs = some (b, r)) : r.length + 2 = cs.length := by
  match cs with
  | [] => simp [readHex2] at h
  | [c] => simp [readHex2] at h
  | h1 :: h2 :: rest =>
    simp only [readHex2] at h
    split at h
    · simp_all
    · exact absurd h (by simp)

theorem readPct_length {cs : List Char} {b : Nat} {r : List Char}
    (h : readPct cs = some (b, r)) : r.length + 3 = cs.length := by
  match cs with
  | [] => simp [readPct] at h
  | c :: rest =>
    simp only [readPct] at h
    split at h
    · have := readHex2_length h
      simp_all
    · exact absurd h (by simp)

theorem readCont_length {rest : List Char} {b : Nat} {r : List Char}
    (h : readCont rest = some (b, r)) : r.length + 3 = rest.length := by
  rcases hp : readPct rest with _ | ⟨b2, r2⟩ <;> simp [readCont, hp] at h
  obtain ⟨h1, h2, h3⟩ := h
  subst h3
  exact readPct_length hp

theorem utf8Finish_length {b1 : Nat} {rest : List Char} {ch : Char} {r2 : List Char}
    (h : utf8Finish b1 rest = some (ch, r2)) : r2.length ≤ rest.length := by
  unfold utf8Finish at h
  split at h
  · simp only [Option.some.injEq, Prod.mk.injEq] at h
    have : rest.length = r2.length := by rw [h.2]
    omega
  · split at h
    · exact absurd h (by simp)
    · split at h
      · rcases hp : readCont rest with _ | ⟨b2, r⟩ <;> simp [hp] at h
        obtain ⟨h1, h2, h3⟩ := h
        subst h3
        have hl := readCont_length hp
        omega
      · split at h
        · rcases hp : readCont rest with _ | ⟨b2, r1⟩ <;> simp [hp] at h
          rcases hp2 : readCont r1 with _ | ⟨b3, r⟩ <;> simp [hp2] at h
          obtain ⟨h1, h2, h3⟩ := h
          subst h3
          have hl := readCont_length hp
          have hl2 := readCont_length hp2
          omega
        · split at h
          · rcases hp : readCont rest with _ | ⟨b2, r1⟩ <;> simp [hp] at h
            rcases hp2 : readCont r1 with _ | ⟨b3, rr⟩ <;> simp [hp2] at h
            rcases hp3 : readCont rr with _ | ⟨b4, r⟩ <;> simp [hp3] at h
            obtain ⟨h1, h2, h3⟩ := h
            subst h3
            have hl := readCont_length hp
            have hl2 := readCont_length hp2
            have hl3 := readCont_length hp3
            omega
          · exact absurd h (by simp)

/-- ECMAScript Decode loop of `decodeURIComponent`: copy ordinary
characters, decode `%`-escape runs as UTF-8, fail (`none`, the JS
`URIError`) on anything malformed. -/
def decodeLoop : List Char → Option (List Char)
  | [] => some []
  | c :: cs =>
    if c = '%' then
      match hb : readHex2 cs with
      | none => none
      | some (b, r) =>
        match hf : utf8Finish b r with
        | none => none
        | some (ch, r2) => (decodeLoop r2).map (fun l => ch :: l)
    else (decodeLoop cs).map (fun l => c :: l)
termination_by l => l.length
decreasing_by
  · have h1 := readHex2_length hb
    have h2 := utf8Finish_length hf
    simp only [List.length_cons]
    omega
  · simp only [List.length_cons]
    omega

/-- ECMAScript `decodeURIComponent`; `none` models the thrown `URIError`. -/
def decodeURIComponentChars (s : List Char) : Option (List Char) :=
  decodeLoop s

theorem decodeLoop_nil : decodeLoop [] = some [] := by
  rw [decodeLoop]

theorem decodeLoop_cons_safe {c : Char} (hc : ¬c = '%') (cs : List Char) :
    decodeLoop (c :: cs) = (decodeLoop cs).map (fun l => c :: l) := by
  rw [decodeLoop]
  simp [hc]

theorem decodeLoop_cons_pct {cs : List Char} {b : Nat} {r : List Char} {ch : Char}
    {r2 : List Char} (hb : readHex2 cs = some (b, r))
    (hf : utf8Finish b r = some (ch, r2)) :
    decodeLoop ('%' :: cs) = (decodeLoop r2).map (fun l => ch :: l) := by
  rw [decodeLoop, if_pos rfl]
  split
  · rename_i heq
    rw [heq] at hb
    exact absurd hb (by simp)
  · rename_i b' r' heq
    rw [heq] at hb
    simp only [Option.some.injEq, Prod.mk.injEq] at hb
    obtain ⟨rfl, rfl⟩ := hb
    split
    · rename_i heq2
      rw [heq2] at hf
      exact absurd hf (by simp)
    · rename_i ch' r2' heq2
      rw [heq2] at hf
      simp only [Option.some.injEq, Prod.mk.injEq] at hf
      obtain ⟨rfl, rfl⟩ := hf
      rfl

theorem hexChar_isHexDigit {n : Nat} (h : n < 16) : isHexDigit (hexChar n) = true := by
  interval_cases n <;> decide

theorem hexVal_hexChar {n : Nat} (h : n < 16) : hexVal (hexChar n) = n := by
  interval_cases n <;> decide

theorem readHex2_encode (b : Nat) (hb : b < 256) (r : List Char) :
    readHex2 (hexChar (b / 16) :: hexChar (b % 16) :: r) = some (b, r) := by
  have h1 : b / 16 < 16 := by omega
  have h2 : b % 16 < 16 := by omega
  simp [readHex2, hexChar_isHexDigit h1, hexChar_isHexDigit h2,
    hexVal_hexChar h1, hexVal_hexChar h2]
  omega

theorem readPct_encode (b : Nat) (hb : b < 256) (r : List Char) :
    readPct (pctEncodeByte b ++ r) = some (b, r) := by
  simp only [pctEncodeByte, List.cons_append, List.nil_append]
  rw [readPct, if_pos rfl, readHex2_encode b hb r]

theorem readCont_encode (b : Nat) (h1 : 0x80 ≤ b) (h2 : b < 0xC0) (r : List Char) :
    readCont (pctEncodeByte b ++ r) = some (b, r) := by
  have hc : isCont b = true := by
    simp [isCont]
    omega
  simp [readCont, readPct_encode b (by omega) r, hc]

/-- Validity bounds of a Lean `Char`: its scalar value is below the
surrogate range or above it and below `0x110000`. -/
theorem char_valid_nat (c : Char) :
    c.toNat < 0xD800 ∨ (0xDFFF < c.toNat ∧ c.toNat < 0x110000) := c.valid

/-- Decoding inverts the percent-encoding of one character. -/
theorem decodeLoop_encodeChar (c : Char) (r : List Char) :
    decodeLoop (encodeURIChar c ++ r) = (decodeLoop r).map (fun l => c :: l) := by
  by_cases hs : encodeURISafe c
  · have hc : ¬c = '%' := by
      intro h
      subst h
      exact absurd hs (by decide)
    simp [encodeURIChar, hs, decodeLoop_cons_safe hc]
  · have hv := char_valid_nat c
    have hofn : Char.ofNat c.toNat = c := Char.ofNat_toNat c
    simp only [encodeURIChar, hs, if_neg, Bool.false_eq_true, not_false_eq_true]
    by_cases h1 : c.toNat < 0x80
    · have hf : utf8Finish c.toNat r = some (Char.ofNat c.toNat, r) := by
        unfold utf8Finish
        rw [if_pos h1]
      have hb : readHex2 (hexChar (c.toNat / 16) :: hexChar (c.toNat % 16) :: r) =
          some (c.toNat, r) := readHex2_encode c.toNat (by omega) r
      simp only [utf8Bytes, if_pos h1, List.flatMap_cons, List.flatMap_nil,
        List.append_nil, pctEncodeByte, List.cons_append, List.nil_append]
      rw [decodeLoop_cons_pct hb hf, hofn]
    · by_cases h2 : c.toNat < 0x800
      · have e1 : 0xC0 + c.toNat / 64 - 0xC0 = c.toNat / 64 := by omega
        have hrc : readCont (pctEncodeByte (0x80 + c.toNat % 64) ++ r) =
            some (0x80 + c.toNat % 64, r) :=
          readCont_encode _ (by omega) (by omega) r
        have hf : utf8Finish (0xC0 + c.toNat / 64)
            (pctEncodeByte (0x80 + c.toNat % 64) ++ r) = some (Char.ofNat c.toNat, r) := by
          unfold utf8Finish
          rw [if_neg (by omega), if_neg (by omega), if_pos (by omega), hrc]
          simp only [Option.some_bind]
          rw [show (0xC0 + c.toNat / 64 - 0xC0) * 64 + (0x80 + c.toNat % 64 - 0x80) =
            c.toNat from by omega]
          rw [if_pos (by omega)]
        have hb : readHex2 (hexChar ((0xC0 + c.toNat / 64) / 16) ::
            hexChar ((0xC0 + c.toNat / 64) % 16) ::
            (pctEncodeByte (0x80 + c.toNat % 64) ++ r)) =
            some (0xC0 + c.toNat / 64, pctEncodeByte (0x80 + c.toNat % 64) ++ r) :=
          readHex2_encode _ (by omega) _
        simp only [utf8Bytes, if_neg h1, if_pos h2, List.flatMap_cons, List.flatMap_nil,
          List.append_nil, List.append_assoc]
        simp only [pctEncodeByte, List.cons_append, List.nil_append] at hb ⊢
        rw [decodeLoop_cons_pct hb hf, hofn]
      · by_cases h3 : c.toNat < 0x10000
        · have hns : ¬(0xD800 ≤ c.toNat ∧ c.toNat ≤ 0xDFFF) := by omega
          have hrc2 : readCont (pctEncodeByte (0x80 + c.toNat % 64) ++ r) =
              some (0x80 + c.toNat % 64, r) :=
            readCont_encode _ (by omega) (by omega) r
          have hrc1 : readCont (pctEncodeByte (0x80 + c.toNat / 64 % 64) ++
              (pctEncodeByte (0x80 + c.toNat % 64) ++ r)) =
              some (0x80 + c.toNat / 64 % 64, pctEncodeByte (0x80 + c.toNat % 64) ++ r) :=
            readCont_encode _ (by omega) (by omega) _
          have hf : utf8Finish (0xE0 + c.toNat / 4096)
              (pctEncodeByte (0x80 + c.toNat / 64 % 64) ++
                (pctEncodeByte (0x80 + c.toNat % 64) ++ r)) =
              some (Char.ofNat c.toNat, r) := by
            unfold utf8Finish
            rw [if_neg (by omega), if_neg (by omega), if_neg (by omega),
              if_pos (by omega), hrc1]
            simp only [Option.some_bind]
            rw [hrc2]
            simp only [Option.some_bind]
            rw [show (0xE0 + c.toNat / 4096 - 0xE0) * 4096 +
              (0x80 + c.toNat / 64 % 64 - 0x80) * 64 + (0x80 + c.toNat % 64 - 0x80) =
              c.toNat from by omega]
            rw [if_pos (by omega)]
          have hb : readHex2 (hexChar ((0xE0 + c.toNat / 4096) / 16) ::
              hexChar ((0xE0 + c.toNat / 4096) % 16) ::
              (pctEncodeByte (0x80 + c.toNat / 64 % 64) ++
                (pctEncodeByte (0x80 + c.toNat % 64) ++ r))) =
              some (0xE0 + c.toNat / 4096,
                pctEncodeByte (0x80 + c.toNat / 64 % 64) ++
                  (pctEncodeByte (0x80 + c.toNat % 64) ++ r)) :=
            readHex2_encode _ (by omega) _
          simp only [utf8Bytes, if_neg h1, if_neg h2, if_pos h3, List.flatMap_cons,
            List.flatMap_nil, List.append_nil, List.append_assoc]
          simp only [pctEncodeByte, List.cons_append, List.nil_append] at hb ⊢
          rw [decodeLoop_cons_pct hb hf, hofn]
        · have hlt : c.toNat < 0x110000 := by
            rcases hv with h | h
            · omega
            · exact h.2
          have hrc3 : readCont (pctEncodeByte (0x80 + c.toNat % 64) ++ r) =
              some (0x80 + c.toNat % 64, r) :=
            readCont_encode _ (by omega) (by omega) r
          have hrc2 : readCont (pctEncodeByte (0x80 + c.toNat / 64 % 64) ++
              (pctEncodeByte (0x80 + c.toNat % 64) ++ r)) =
              some (0x80 + c.toNat / 64 % 64, pctEncodeByte (0x80 + c.toNat % 64) ++ r) :=
            readCont_encode _ (by omega) (by omega) _
          have hrc1 : readCont (pctEncodeByte (0x80 + c.toNat / 4096 % 64) ++
              (pctEncodeByte (0x80 + c.toNat / 64 % 64) ++
                (pctEncodeByte (0x80 + c.toNat % 64) ++ r))) =
              some (0x80 + c.toNat / 4096 % 64,
                pctEncodeByte (0x80 + c.toNat / 64 % 64) ++
                  (pctEncodeByte (0x80 + c.toNat % 64) ++ r)) :=
            readCont_encode _ (by omega) (by omega) _
          have hf : utf8Finish (0xF0 + c.toNat / 262144)
              (pctEncodeByte (0x80 + c.toNat / 4096 % 64) ++
                (pctEncodeByte (0x80 + c.toNat / 64 % 64) ++
                  (pctEncodeByte (0x80 + c.toNat % 64) ++ r))) =
              some (Char.ofNat c.toNat, r) := by
            unfold utf8Finish
            rw [if_neg (by omega), if_neg (by omega), if_neg (by omega),
              if_neg (by omega), if_pos (by omega), hrc1]
            simp only [Option.some_bind]
            rw [hrc2]
            simp only [Option.some_bind]
            rw [hrc3]
            simp only [Option.some_bind]
            rw [show (0xF0 + c.toNat / 262144 - 0xF0) * 262144 +
              (0x80 + c.toNat / 4096 % 64 - 0x80) * 4096 +
              (0x80 + c.toNat / 64 % 64 - 0x80) * 64 + (0x80 + c.toNat % 64 - 0x80) =
              c.toNat from by omega]
            rw [if_pos (by omega)]
          have hb : readHex2 (hexChar ((0xF0 + c.toNat / 262144) / 16) ::
              hexChar ((0xF0 + c.toNat / 262144) % 16) ::
              (pctEncodeByte (0x80 + c.toNat / 4096 % 64) ++
                (pctEncodeByte (0x80 + c.toNat / 64 % 64) ++
                  (pctEncodeByte (0x80 + c.toNat % 64) ++ r)))) =
              some (0xF0 + c.toNat / 262144,
                pctEncodeByte (0x80 + c.toNat / 4096 % 64) ++
                  (pctEncodeByte (0x80 + c.toNat / 64 % 64) ++
                    (pctEncodeByte (0x80 + c.toNat % 64) ++ r))) :=
            readHex2_encode _ (by omega) _
          simp only [utf8Bytes, if_neg h1, if_neg h2, if_neg h3, List.flatMap_cons,
            List.flatMap_nil, List.append_nil, List.append_assoc]
          simp only [pctEncodeByte, List.cons_append, List.nil_append] at hb ⊢
          rw [decodeLoop_cons_pct hb hf, hofn]

/-- Decoding inverts `encodeURI` on any prefix. -/
theorem decodeLoop_encode (s r : List Char) :
    decodeLoop (encodeURIChars s ++ r) = (decodeLoop r).map (fun l => s ++ l) := by
  induction s with
  | nil =>
    simp [encodeURIChars]
  | cons c cs ih =>
    simp only [encodeURIChars, List.flatMap_cons, List.append_assoc]
    rw [show cs.flatMap encodeURIChar = encodeURIChars cs from rfl]
    rw [decodeLoop_encodeChar c (encodeURIChars cs ++ r), ih]
    cases hr : decodeLoop r <;> simp [hr]

/-- Round trip: `decodeURIComponent (encodeURI s) = s`. -/
theorem decode_encode (s : List Char) :
    decodeURIComponentChars (encodeURIChars s) = some s := by
  have h := decodeLoop_encode s []
  simp only [List.append_nil] at h
  rw [decodeURIComponentChars, h, decodeLoop_nil]
  simp

/-- Characters other than `%` pass through the decode loop untouched. -/
theorem decodeLoop_noPctChars (p : List Char) (hp : ∀ c ∈ p, ¬c = '%') (r : List Char) :
    decodeLoop (p ++ r) = (decodeLoop r).map (fun l => p ++ l) := by
  induction p with
  | nil => cases hr : decodeLoop r <;> simp [hr]
  | cons c cs ih =>
    have hc : ¬c = '%' := hp c (by simp)
    simp only [List.cons_append]
    rw [decodeLoop_cons_safe hc, ih (fun x hx => hp x (by simp [hx]))]
    cases hr : decodeLoop r <;> simp [hr]

def fileLocalhostSlash : List Char := "file://localhost/".toList

def fileTripleSlash : List Char := "file:///".toList

def fileLocalhost : List Char := "file://localhost".toList

/-- Prefix strip of `formatRekordboxPath`, step 2 (parser.ts lines
133-138).  The JS `replace` calls are guarded by `startsWith`, so they
are prefix substitutions. -/
def stripKnownPfx (clean1 : List Char) : List Char :=
  if fileLocalhostSlash.isPrefixOf clean1 then
    '/' :: clean1.drop fileLocalhostSlash.length
  else if fileTripleSlash.isPrefixOf clean1 then
    '/' :: clean1.drop fileTripleSlash.length
  else clean1

/-- Step 3 of `formatRekordboxPath` (parser.ts lines 141-143): ensure a
leading slash. -/
def ensureSlash (l : List Char) : List Char :=
  if ['/'].isPrefixOf l then l else '/' :: l

/-- Steps 1-3 of `formatRekordboxPath` (parser.ts lines 124-143):
decode (falling back to the raw path when decoding throws), strip a
known `file://localhost/` or `file:///` prefix, ensure a leading
slash. -/
def cleanPathOf (path : List Char) : List Char :=
  ensureSlash (stripKnownPfx (match decodeURIComponentChars path with
    | some s => s
    | none => path))

/-- Embedding of `formatRekordboxPath` (parser.ts lines 121-153) on
character lists: decode, strip, re-slash, re-encode with `encodeURI`
and re-attach the `file://localhost` prefix. -/
def formatPathChars (path : List Char) : List Char :=
  if path = [] then []
  else fileLocalhost ++ encodeURIChars (cleanPathOf path)

/-- Embedding of `formatRekordboxPath` on strings. -/
def formatRekordboxPath (s : String) : String :=
  String.mk (formatPathChars s.toList)

theorem ensureSlash_head (l : List Char) : ∃ t, ensureSlash l = '/' :: t := by
  unfold ensureSlash
  split
  · rename_i h
    rw [List.isPrefixOf_iff_prefix] at h
    obtain ⟨t, ht⟩ := h
    exact ⟨t, ht.symm⟩
  · exact ⟨_, rfl⟩

theorem ensureSlash_of_slash (l t : List Char) (h : l = '/' :: t) :
    ensureSlash l = l := by
  subst h
  have hpre : (['/'] : List Char).isPrefixOf ('/' :: t) = true :=
    List.isPrefixOf_iff_prefix.mpr ⟨t, rfl⟩
  rw [ensureSlash, if_pos hpre]

theorem cleanPathOf_head (path : List Char) : ∃ t, cleanPathOf path = '/' :: t :=
  ensureSlash_head _

theorem formatPathChars_idem (p : List Char) :
    formatPathChars (formatPathChars p) = formatPathChars p := by
  by_cases hp : p = []
  · subst hp
    rfl
  · obtain ⟨t, ht⟩ := cleanPathOf_head p
    have hfl : fileLocalhost ≠ [] := by decide
    have hfp : formatPathChars p = fileLocalhost ++ encodeURIChars (cleanPathOf p) := by
      rw [formatPathChars, if_neg hp]
    have hne : formatPathChars p ≠ [] := by
      rw [hfp]
      intro hc
      rw [List.append_eq_nil] at hc
      exact hfl hc.1
    have hdec : decodeURIComponentChars (formatPathChars p) =
        some (fileLocalhost ++ cleanPathOf p) := by
      rw [hfp, decodeURIComponentChars, decodeLoop_noPctChars fileLocalhost (by decide) _]
      have h2 := decode_encode (cleanPathOf p)
      rw [decodeURIComponentChars] at h2
      rw [h2]
      rfl
    have hstrip : stripKnownPfx (fileLocalhost ++ cleanPathOf p) = cleanPathOf p := by
      have hsplit : fileLocalhost ++ cleanPathOf p = fileLocalhostSlash ++ t := by
        rw [ht, show fileLocalhostSlash = fileLocalhost ++ ['/'] from by decide,
          List.append_assoc]
        rfl
      rw [hsplit, stripKnownPfx,
        if_pos (List.isPrefixOf_iff_prefix.mpr (List.prefix_append _ _)),
        List.drop_left, ← ht]
    have hclean : cleanPathOf (formatPathChars p) = cleanPathOf p := by
      rw [cleanPathOf, hdec]
      show ensureSlash (stripKnownPfx (fileLocalhost ++ cleanPathOf p)) = cleanPathOf p
      rw [hstrip]
      exact ensureSlash_of_slash _ t ht
    rw [formatPathChars, if_neg hne, hclean, hfp]

/-- Rewrite the first list element satisfying `p` with `f`, modelling a
JS `array.find(...)` whose result is then mutated in place. -/
def updateFirst (p : XNode → Bool) (f : XNode → XNode) : List XNode → List XNode
  | [] => []
  | x :: xs => if p x then f x :: xs else x :: updateFirst p f xs

theorem updateFirst_idem (p : XNode → Bool) (f : XNode → XNode)
    (hpf : ∀ x, p (f x) = p x) (hff : ∀ x, p x = true → f (f x) = f x) :
    ∀ l, updateFirst p f (updateFirst p f l) = updateFirst p f l := by
  intro l
  induction l with
  | nil => rfl
  | cons x xs ih =>
    by_cases hx : p x
    · simp [updateFirst, hx, hpf x, hff x hx]
    · simp [updateFirst, hx, ih]

theorem setAttr_setAttr_self (m : List (String × String)) (k v w : String) :
    setAttr (setAttr m k v) k w = setAttr m k w := by
  induction m with
  | nil => simp [setAttr]
  | cons hd tl ih =>
    obtain ⟨k0, v0⟩ := hd
    by_cases h : k0 = k
    · simp [setAttr, h]
    · simp [setAttr, h, ih]

/-- Location rewrite of the export pre-pass (parser.ts lines 430-437):
every `TRACK` child with an attribute object whose `@_Location` is
truthy gets its location re-formatted. -/
def sanitizeTrackChild (child : XNode) : XNode :=
  if child.tag = "TRACK" then
    match child.attrs with
    | some m =>
      match getAttr m "@_Location" with
      | some loc =>
        if loc ≠ "" then
          XNode.mk child.tag
            (some (setAttr m "@_Location" (formatRekordboxPath loc))) child.children
        else child
      | none => child
    | none => child
  else child

/-- Export pre-pass of `exportRekordboxXML` (parser.ts lines 425-439):
normalize `@_Location` on every child of the first `COLLECTION` inside
the first `DJ_PLAYLISTS`; a document without those sections is left
unchanged. -/
def exportPrePass (fullData : List XNode) : List XNode :=
  updateFirst (fun n => n.tag = "DJ_PLAYLISTS")
    (fun dj => XNode.mk dj.tag dj.attrs
      (updateFirst (fun n => n.tag = "COLLECTION")
        (fun col => XNode.mk col.tag col.attrs (col.children.map sanitizeTrackChild))
        dj.children))
    fullData

/-- Embedding of `exportRekordboxXML` (parser.ts lines 423-452).  The
serializer is the external `fast-xml-parser` `XMLBuilder`, which is not
part of this repository; it is modelled as an arbitrary but fixed
function `builder` of the pre-processed document.  The JS function
mutates `fullData` in place and returns the text, so the model returns
the mutated document together with the output text. -/
def exportRekordboxXML (builder : List XNode → String) (fullData : List XNode) :
    (List XNode) × String :=
  let d := exportPrePass fullData
  (d, "<?xml version=\"1.0\" encoding=\"UTF-8\"?>\n" ++ builder d)

theorem formatRekordboxPath_idem (s : String) :
    formatRekordboxPath (formatRekordboxPath s) = formatRekordboxPath s := by
  unfold formatRekordboxPath
  congr 1
  exact formatPathChars_idem s.toList

theorem formatRekordboxPath_ne_empty (s : String) (h : s ≠ "") :
    formatRekordboxPath s ≠ "" := by
  unfold formatRekordboxPath formatPathChars
  have hl : s.toList ≠ [] := by
    intro hc
    exact h (by cases s with | mk l => cases hl' : l with
      | nil => rfl
      | cons a as => simp [hl'] at hc)
  rw [if_neg hl]
  intro hc
  have : (fileLocalhost ++ encodeURIChars (cleanPathOf s.toList)) = [] := by
    have := congrArg String.toList hc
    exact this
  simp [fileLocalhost] at this

theorem sanitizeTrackChild_idem (child : XNode) :
    sanitizeTrackChild (sanitizeTrackChild child) = sanitizeTrackChild child := by
  obtain ⟨tag, attrs, children⟩ := child
  by_cases htag : tag = "TRACK"
  · subst htag
    rcases attrs with _ | m
    · simp [sanitizeTrackChild, XNode.tag, XNode.attrs]
    · rcases hloc : getAttr m "@_Location" with _ | loc
      · simp [sanitizeTrackChild, XNode.tag, XNode.attrs, hloc]
      · by_cases hne : loc = ""
        · simp [sanitizeTrackChild, XNode.tag, XNode.attrs, hloc, hne]
        · have h1 : sanitizeTrackChild (XNode.mk "TRACK" (some m) children) =
              XNode.mk "TRACK"
                (some (setAttr m "@_Location" (formatRekordboxPath loc))) children := by
            simp [sanitizeTrackChild, XNode.tag, XNode.attrs, XNode.children, hloc, hne]
          rw [h1]
          have hloc2 : getAttr (setAttr m "@_Location" (formatRekordboxPath loc))
              "@_Location" = some (formatRekordboxPath loc) := getAttr_setAttr_self _ _ _
          have hne2 : formatRekordboxPath loc ≠ "" := formatRekordboxPath_ne_empty loc hne
          simp only [sanitizeTrackChild, XNode.tag, XNode.attrs, XNode.children, hloc2,
            if_pos rfl, hne2, if_pos]
          rw [if_pos (by trivial)]
          rw [setAttr_setAttr_self, formatRekordboxPath_idem]
  · simp [sanitizeTrackChild, XNode.tag, htag]

theorem exportPrePass_idem (fullData : List XNode) :
    exportPrePass (exportPrePass fullData) = exportPrePass fullData := by
  unfold exportPrePass
  apply updateFirst_idem
  · intro x
    rfl
  · intro x _
    simp only [XNode.tag, XNode.attrs, XNode.children, XNode.mk.injEq, true_and]
    apply updateFirst_idem
    · intro y
      rfl
    · intro y _
      simp only [XNode.tag, XNode.attrs, XNode.children, XNode.mk.injEq, true_and]
      rw [List.map_map]
      apply List.map_congr_left
      intro a _
      simp only [Function.comp_apply]
      exact sanitizeTrackChild_idem a

/-- C1: the export path-normalization pass is idempotent -
`formatRekordboxPath` is idempotent on every location string, and as a
consequence exporting the same (unmutated) document twice yields the
same mutated document and byte-identical output text, for any
deterministic serializer. -/
theorem formatRekordboxPath_export_idempotent :
    (∀ p : String, formatRekordboxPath (formatRekordboxPath p) = formatRekordboxPath p)
    ∧ (∀ (builder : List XNode → String) (fullData : List XNode),
        exportRekordboxXML builder (exportRekordboxXML builder fullData).1 =
          exportRekordboxXML builder fullData)
    ∧ (∀ (builder : List XNode → String) (fullData : List XNode),
        (exportRekordboxXML builder (exportRekordboxXML builder fullData).1).2 =
          (exportRekordboxXML builder fullData).2) := by
  have hexp : ∀ (builder : List XNode → String) (fullData : List XNode),
      exportRekordboxXML builder (exportRekordboxXML builder fullData).1 =
        exportRekordboxXML builder fullData := by
    intro builder fullData
    unfold exportRekordboxXML
    simp only [exportPrePass_idem]
  exact ⟨formatRekordboxPath_idem, hexp, fun b d => by rw [hexp b d]⟩

/-! Vocabulary tables (`src/services/taxonomy.ts`) and tag validation
(`src/services/ai.ts`). -/

/-- Closed vocabulary of mood tags (`VIBE_TAGS`). -/
def VIBE_TAGS : List String :=
  ["Euphorric", "Gritty", "Breezy", "Sultry", "Aggressive",
   "Hypnotic", "Bouncy", "Soulful", "Nostalgic", "Trippy",
   "Raw", "Cinematic", "Groovy", "Dark", "Cheesy"]

/-- Closed vocabulary of sub-genre tags (`MICRO_GENRE_TAGS`). -/
def MICRO_GENRE_TAGS : List String :=
  ["Acid Jazz", "Afro House", "Afrobeats", "Amapiano", "Bass House", "Big Room",
   "Boom Bap", "Chicago House", "Complextro", "Dancehall", "Deep Tech",
   "Detroit Techno", "Disco Edit", "Drum & Bass", "Dubstep", "Electro Swing",
   "Eurodance", "Future Bass", "Future House", "G-House", "Garage / UKG",
   "Glitch Hop", "Hardstyle", "Indie Dance", "Italo Disco", "Jersey Club",
   "Latin Tech", "Liquid DnB", "Lo-Fi HipHop", "Melodic Techno", "Minimal",
   "Moombahton", "Motown", "Neo Soul", "Nu Disco", "Progressive Trance",
   "Psytrance", "Reggaeton", "Synthwave", "Tech House", "Trap",
   "Tribal House", "Tropical House", "Yacht Rock", "00s Pop",
   "90s HipHop", "80s NewWave",
   "Drill", "Grime", "Southern HipHop", "Gangsta Rap", "Cloud Rap",
   "Conscious HipHop", "Jazz Rap", "Hyphy", "Crunk", "Trap",
   "Heavy Metal", "Hard Rock", "Thrash Metal", "Classic Rock", "Alternative Rock",
   "Indie Rock", "Punk Rock", "Pop Punk", "Grunge", "Industrial", "Nu Metal",
   "Emo", "Ska Punk",
   "Contemporary R&B", "Slow Jams", "New Jack Swing", "Funk", "Soul",
   "Hyperpop", "Electropop", "City Pop", "K-Pop", "Latin Pop", "Dembow",
   "Baile Funk", "Reggae", "Roots Reggae", "Ska", "Blues", "Country", "Folk",
   "Classical"]

/-- Closed vocabulary of situation tags (`SITUATION_TAGS`). -/
def SITUATION_TAGS : List String :=
  ["Warm Up", "Cocktail Hour", "Sunset Session", "Poolside", "Peak Hour",
   "Festival Stage", "After Party", "Gym Workout", "Road Trip", "Date Night",
   "Beach Club", "Radio Friendly", "Closing Set", "Transition Tool",
   "Crowd Control"]

/-- JS `str.toLowerCase()` restricted to the ASCII case mapping (the
vocabularies are ASCII). -/
def jsLower (s : String) : String :=
  String.mk (s.toList.map Char.toLower)

/-- Embedding of `validateTag` (ai.ts lines 15-19): a falsy tag and a tag
not found in the vocabulary (case-insensitively, after trimming) both
resolve to the sentinel; a found entry is returned in the vocabulary's
canonical casing (`match || "Unknown"` also maps a found empty string
to the sentinel). -/
def validateTag (tag : Option String) (allowed : List String) : String :=
  match tag with
  | none => "Unknown"
  | some t =>
    if t = "" then "Unknown"
    else
      match allowed.find? (fun a => jsLower a = jsLower (jsTrim t)) with
      | some m => if m = "" then "Unknown" else m
      | none => "Unknown"

/-- Replace every non-overlapping occurrence of `pat` (left to right),
the semantics of a JS global-regex `replace` with a literal pattern.
Structural recursion on a fuel initialized to the list length (each
step consumes at least one character, so the fuel never runs out);
this keeps the definition kernel-evaluable. -/
def replaceAllAux (pat rep : List Char) : Nat → List Char → List Char
  | _, [] => []
  | 0, l => l
  | fuel + 1, c :: cs =>
    if pat.isPrefixOf (c :: cs) ∧ pat ≠ [] then
      rep ++ replaceAllAux pat rep fuel ((c :: cs).drop pat.length)
    else
      c :: replaceAllAux pat rep fuel cs

/-- Replace-all on character lists. -/
def replaceAllChars (pat rep l : List Char) : List Char :=
  replaceAllAux pat rep l.length l

/-- String wrapper for `replaceAllChars`. -/
def jsReplaceAll (s pat rep : String) : String :=
  String.mk (replaceAllChars pat.toList rep.toList s.toList)

/-- The apostrophe character as a string. -/
def apos : String := String.mk [Char.ofNat 39]

/-- Embedding of `decodeEntities` (parser.ts lines 6-13): sequential
global replaces of the five XML entities, `&amp;` first. -/
def decodeEntities (s : String) : String :=
  if s = "" then ""
  else jsReplaceAll (jsReplaceAll (jsReplaceAll (jsReplaceAll (jsReplaceAll
    s "&amp;" "&") "&lt;" "<") "&gt;" ">") "&quot;" "\"") "&apos;" apos

/-- Character class of the hashtag regex `#[a-zA-Z0-9_\-&]+`. -/
def isHashtagChar (c : Char) : Bool :=
  ('a' ≤ c && c ≤ 'z') || ('A' ≤ c && c ≤ 'Z') || ('0' ≤ c && c ≤ '9') ||
  c = '_' || c = '-' || c = '&'

/-- All matches of the global regex `#[a-zA-Z0-9_\\-&]+`, each including
the leading `#`: at each position a `#` followed by at least one class
character starts a maximal match; scanning resumes after the match.
Structural fuel recursion (fuel = list length) for kernel
evaluability. -/
def findHashtagsAux : Nat → List Char → List (List Char)
  | _, [] => []
  | 0, _ => []
  | fuel + 1, c :: cs =>
    if c = '#' then
      match cs.takeWhile isHashtagChar with
      | [] => findHashtagsAux fuel cs
      | run => ('#' :: run) :: findHashtagsAux fuel (cs.drop run.length)
    else findHashtagsAux fuel cs

/-- All hashtag matches of a character list. -/
def findHashtags (l : List Char) : List (List Char) :=
  findHashtagsAux l.length l

/-- Helper `findInList` inside `extractAnalysisFromComments` (parser.ts
lines 42-52): first vocabulary item whose lowercased, space-stripped
form is among the found tags, else `""`. -/
def findInList (foundTags : List String) (list : List String) : String :=
  match list.find? (fun item => foundTags.contains (stripWs (jsLower item))) with
  | some item => item
  | none => ""

/-- Embedding of `extractAnalysisFromComments` (parser.ts lines 27-68). -/
def extractAnalysisFromComments (comments : String) : Option AIAnalysis :=
  if comments = "" then none
  else
    match findHashtags (decodeEntities comments).toList with
    | [] => none
    | hs =>
      let foundTags := hs.map (fun t => jsLower (String.mk (t.drop 1)))
      let vibe := findInList foundTags VIBE_TAGS
      let genre := findInList foundTags MICRO_GENRE_TAGS
      let situation := findInList foundTags SITUATION_TAGS
      if vibe ≠ "" ∨ genre ≠ "" ∨ situation ≠ "" then
        some { vibe := if vibe ≠ "" then vibe else "Unknown",
               genre := if genre ≠ "" then genre else "Unknown",
               situation := if situation ≠ "" then situation else "Unknown" }
      else none

/-- One parsed item of a collaborator response (a JSON object with an
`id` and optional tag fields; absent and non-string fields are falsy,
modelled as `none` / `""`). -/
structure RespItem where
  id : String := ""
  vibe : Option String := none
  genre : Option String := none
  situation : Option String := none
  release_year : String := ""
  year : String := ""
  hashtags : Option String := none
deriving Repr, DecidableEq

/-- Analysis built from one response item (ai.ts resultsMap assignment;
part_003 lines 217-228): each tag field is validated against its
vocabulary — the genre list is `MAIN_GENRE_TAGS` in `missing_genre`
mode and `MICRO_GENRE_TAGS` otherwise — and the year falls back
through `release_year || year || "0"`. -/
def analysisOfItem (genreList : List String) (it : RespItem) : AIAnalysis :=
  { vibe := validateTag it.vibe VIBE_TAGS
    genre := validateTag it.genre genreList
    situation := validateTag it.situation SITUATION_TAGS
    year := if it.release_year ≠ "" then it.release_year
            else if it.year ≠ "" then it.year else "0"
    hashtags := it.hashtags }

theorem validateTag_mem (tag : Option String) (allowed : List String) :
    validateTag tag allowed ∈ allowed ∨ validateTag tag allowed = "Unknown" := by
  rcases tag with _ | t
  · right
    rfl
  · by_cases ht : t = ""
    · right
      simp [validateTag, ht]
    · rcases h : allowed.find? (fun a => jsLower a = jsLower (jsTrim t)) with _ | m
      · right
        simp [validateTag, ht, h]
      · by_cases hm : m = ""
        · right
          simp [validateTag, ht, h, hm]
        · left
          have hv : validateTag (some t) allowed = m := by
            simp [validateTag, ht, h, hm]
          rw [hv]
          exact List.mem_of_find?_eq_some h

theorem findInList_mem (foundTags list : List String) :
    findInList foundTags list ∈ list ∨ findInList foundTags list = "" := by
  unfold findInList
  rcases h : list.find? (fun item => foundTags.contains (stripWs (jsLower item))) with _ | m
  · right
    rfl
  · left
    exact List.mem_of_find?_eq_some h

theorem findInList_closed (ft list : List String) :
    (if findInList ft list ≠ "" then findInList ft list else "Unknown") ∈ list ∨
      (if findInList ft list ≠ "" then findInList ft list else "Unknown") = "Unknown" := by
  rcases findInList_mem ft list with hm | hm
  · by_cases h : findInList ft list = ""
    · right
      simp [h]
    · left
      simpa [h] using hm
  · right
    simp [hm]

/-- C5: every Analysis the program constructs is vocabulary-closed: the
`validateTag` result is a vocabulary member (canonical casing) or the
sentinel `"Unknown"`; so is every mood/genre/situation field of an
analysis built from a collaborator response item, and of an analysis
extracted from comment hashtags at parse time. -/
theorem analysis_vocabulary_closed :
    (∀ (tag : Option String) (allowed : List String),
        validateTag tag allowed ∈ allowed ∨ validateTag tag allowed = "Unknown")
    ∧ (∀ (genreList : List String) (it : RespItem),
        ((analysisOfItem genreList it).vibe ∈ VIBE_TAGS ∨
          (analysisOfItem genreList it).vibe = "Unknown")
        ∧ ((analysisOfItem genreList it).genre ∈ genreList ∨
          (analysisOfItem genreList it).genre = "Unknown")
        ∧ ((analysisOfItem genreList it).situation ∈ SITUATION_TAGS ∨
          (analysisOfItem genreList it).situation = "Unknown"))
    ∧ (∀ (comments : String) (a : AIAnalysis),
        extractAnalysisFromComments comments = some a →
        (a.vibe ∈ VIBE_TAGS ∨ a.vibe = "Unknown")
        ∧ (a.genre ∈ MICRO_GENRE_TAGS ∨ a.genre = "Unknown")
        ∧ (a.situation ∈ SITUATION_TAGS ∨ a.situation = "Unknown")) := by
  refine ⟨validateTag_mem, ?_, ?_⟩
  · intro genreList it
    exact ⟨validateTag_mem it.vibe VIBE_TAGS, validateTag_mem it.genre genreList,
      validateTag_mem it.situation SITUATION_TAGS⟩
  · intro comments a h
    simp only [extractAnalysisFromComments] at h
    split at h
    · exact absurd h (by simp)
    · split at h
      · exact absurd h (by simp)
      · split at h
        · simp only [Option.some.injEq] at h
          subst h
          exact ⟨findInList_closed _ _, findInList_closed _ _, findInList_closed _ _⟩
        · exact absurd h (by simp)

/-- Witness for `analysis_vocabulary_closed` on a concrete comment
string carrying one vibe and one genre hashtag. -/
theorem analysis_vocabulary_closed_witness :
    extractAnalysisFromComments "great #dark tune #trap" =
      some { vibe := "Dark", genre := "Trap", situation := "Unknown" } ∧
    ((("Dark" : String) ∈ VIBE_TAGS ∨ ("Dark" : String) = "Unknown")
      ∧ (("Trap" : String) ∈ MICRO_GENRE_TAGS ∨ ("Trap" : String) = "Unknown")
      ∧ (("Unknown" : String) ∈ SITUATION_TAGS ∨ ("Unknown" : String) = "Unknown")) :=
  ⟨by decide, analysis_vocabulary_closed.2.2 "great #dark tune #trap"
    { vibe := "Dark", genre := "Trap", situation := "Unknown" } (by decide)⟩

/-! Duplicate fingerprint engine (`src/services/utils.ts`,
`findDuplicates`, lines 50-123). -/

/-- Leading decimal run of a character list as a number, `none` when the
first character is not a digit. -/
def digitsToNat? (l : List Char) : Option Nat :=
  match l.takeWhile (fun c => c.isDigit) with
  | [] => none
  | ds => some (ds.foldl (fun acc c => acc * 10 + (c.toNat - 48)) 0)

/-- JS `parseInt(s, 10)`: skip leading whitespace, optional sign, then a
maximal decimal digit run; `none` models `NaN`. -/
def jsParseInt (s : String) : Option Int :=
  match s.toList.dropWhile (fun c => isJsWs c) with
  | '-' :: r => (digitsToNat? r).map (fun n => -(n : Int))
  | '+' :: r => (digitsToNat? r).map (fun n => (n : Int))
  | r => (digitsToNat? r).map (fun n => (n : Int))

/-- Parsed duration of a track, `parseInt(t.TotalTime || "0", 10)`
(utils.ts lines 86-87). -/
def durOf (t : Track) : Option Int :=
  jsParseInt (if t.TotalTime = "" then "0" else t.TotalTime)

/-- One pair comparison of `findDuplicates` (utils.ts lines 86-94): a
pair is confirmed when both durations are known (a `NaN` duration
never passes the `diff <= 2` test), nonzero, and within 2 seconds. -/
def pairConfirmed (a b : Track) : Bool :=
  match durOf a, durOf b with
  | some x, some y =>
    if x = 0 ∨ y = 0 then false
    else decide ((x - y).natAbs ≤ 2)
  | _, _ => false

/-- Pair comparison at two slots of a bucket. -/
def pairAt (g : List Track) (i j : Nat) : Bool :=
  match g[i]?, g[j]? with
  | some ti, some tj => pairConfirmed ti tj
  | _, _ => false

/-- JS `Set.prototype.add` on a list kept in insertion order. -/
def insertStr (s : String) (l : List String) : List String :=
  if s ∈ l then l else l ++ [s]

/-- JS `Set.prototype.add` for index sets (only membership is ever
queried). -/
def insertNat (n : Nat) (l : List Nat) : List Nat :=
  if n ∈ l then l else l ++ [n]

/-- Inner `j` loop body of `findDuplicates` (utils.ts lines 82-100):
on a confirmed pair record both ids, set the row flag and mark `j`
processed. -/
def dupInnerStep (g : List Track) (i : Nat) (st : Bool × List Nat × List String)
    (j : Nat) : Bool × List Nat × List String :=
  match g[i]?, g[j]? with
  | some ti, some tj =>
    if pairConfirmed ti tj then
      (true, insertNat j st.2.1, insertStr tj.TrackID (insertStr ti.TrackID st.2.2))
    else st
  | _, _ => st

/-- Push decision after the inner loop of row `i` (utils.ts lines
101-103): keep the row's track when the flag is set or the row index
was marked processed by an earlier row. -/
def dupOuterFinish (g : List Track) (conf : List Track) (i : Nat)
    (inner : Bool × List Nat × List String) : List Nat × List String × List Track :=
  match g[i]? with
  | some ti =>
    if inner.1 = true ∨ i ∈ inner.2.1 then (inner.2.1, inner.2.2, conf ++ [ti])
    else (inner.2.1, inner.2.2, conf)
  | none => (inner.2.1, inner.2.2, conf)

/-- Outer `i` loop body of `findDuplicates` (utils.ts lines 80-104):
run the inner loop over `j = i+1 .. n-1`, then push the row's track
when it was on either side of a confirmed pair. -/
def dupOuterStep (g : List Track) (st : List Nat × List String × List Track)
    (i : Nat) : List Nat × List String × List Track :=
  dupOuterFinish g st.2.2 i
    ((List.range' (i + 1) (g.length - (i + 1))).foldl (dupInnerStep g i)
      (false, st.1, st.2.1))

/-- Duration scan of one fingerprint bucket (utils.ts lines 76-108),
threading the global `duplicateIds` set; returns the updated id set
and the bucket's confirmed duplicates.  The JS
`Array.from(new Set(confirmedDuplicates))` dedups object references
and each bucket element is pushed at most once (once per index `i`),
so it is the identity and is not modelled. -/
def scanBucket (g : List Track) (ids : List String) : List String × List Track :=
  let res := (List.range g.length).foldl (dupOuterStep g) ([], ids, [])
  (res.2.1, res.2.2)

/-- Normalization of `findDuplicates` (utils.ts line 56): lowercase and
strip everything but `[a-z0-9]`. -/
def normalizeFp (s : String) : String :=
  String.mk ((s.toList.map Char.toLower).filter
    (fun c => ('a' ≤ c && c ≤ 'z') || ('0' ≤ c && c ≤ '9')))

/-- Fingerprint of a track: normalized artist then normalized title. -/
def fingerprintOf (t : Track) : String :=
  normalizeFp t.Artist ++ normalizeFp t.Name

/-- Distinct nonempty fingerprints in order of first appearance,
modelling the JS object key set (empty fingerprints are skipped at
insertion, utils.ts line 64). -/
def fingerprintsOf (tracks : List Track) : List String :=
  (tracks.map fingerprintOf).foldl
    (fun acc f => if f = "" then acc else insertStr f acc) []

/-- Bucket of a fingerprint: the tracks carrying it, in input order. -/
def bucketOf (tracks : List Track) (f : String) : List Track :=
  tracks.filter (fun t => fingerprintOf t = f)

/-- Group record mirroring the TypeScript `DuplicateGroup`. -/
structure DuplicateGroup where
  fingerprint : String
  tracks : List Track
deriving Repr, DecidableEq

/-- Result record of `findDuplicates`. -/
structure DupResult where
  ids : List String
  groups : List DuplicateGroup
  duplicateCount : Nat
deriving Repr, DecidableEq

/-- Per-fingerprint step of `findDuplicates` (utils.ts lines 73-116):
skip buckets smaller than 2, otherwise scan and keep the group when at
least 2 confirmed members were found. -/
def findDupStep (tracks : List Track) (st : List String × List DuplicateGroup)
    (f : String) : List String × List DuplicateGroup :=
  let g := bucketOf tracks f
  if g.length < 2 then st
  else
    let scanned := scanBucket g st.1
    if 1 < scanned.2.length then (scanned.1, st.2 ++ [⟨f, scanned.2⟩])
    else (scanned.1, st.2)

/-- Embedding of `findDuplicates` (utils.ts lines 50-123): bucket the
tracks by fingerprint, scan every bucket of size at least 2 pairwise,
and keep one group per fingerprint having at least 2 confirmed
members. -/
def findDuplicates (tracks : List Track) : DupResult :=
  let res := (fingerprintsOf tracks).foldl (findDupStep tracks) ([], [])
  ⟨res.1, res.2, res.1.length⟩

/-- Spec-side characterization: slot `i` of the bucket is on some side
of at least one confirmed pair. -/
def hasPartner (g : List Track) (i : Nat) : Bool :=
  (List.range g.length).any (fun j => j ≠ i && pairAt g i j)

/-- Spec-side member list of a bucket: exactly the tracks (by slot) on
either side of at least one confirmed pair, in bucket order. -/
def confirmedMembers (g : List Track) : List Track :=
  ((List.range g.length).filter (fun i => hasPartner g i)).filterMap (fun i => g[i]?)

theorem mem_insertNat (n x : Nat) (l : List Nat) :
    x ∈ insertNat n l ↔ x ∈ l ∨ x = n := by
  unfold insertNat
  split
  · rename_i h
    constructor
    · exact Or.inl
    · rintro (hx | rfl)
      · exact hx
      · exact h
  · simp

theorem pairConfirmed_symm (a b : Track) : pairConfirmed a b = pairConfirmed b a := by
  rcases ha : durOf a with _ | x <;> rcases hb : durOf b with _ | y <;>
    simp only [pairConfirmed, ha, hb]
  have hab : (x - y).natAbs = (y - x).natAbs := by omega
  by_cases h1 : x = 0 <;> by_cases h2 : y = 0 <;> simp [h1, h2, hab]

theorem pairAt_symm (g : List Track) (i j : Nat) : pairAt g i j = pairAt g j i := by
  unfold pairAt
  rcases g[i]? with _ | ti <;> rcases g[j]? with _ | tj <;> simp
  exact pairConfirmed_symm ti tj

theorem pairAt_lt (g : List Track) (i j : Nat) (h : pairAt g i j = true) :
    i < g.length ∧ j < g.length := by
  unfold pairAt at h
  rcases hi : g[i]? with _ | ti <;> rw [hi] at h
  · simp at h
  · rcases hj : g[j]? with _ | tj <;> rw [hj] at h
    · simp at h
    · exact ⟨(List.getElem?_eq_some.mp hi).1, (List.getElem?_eq_some.mp hj).1⟩

theorem dupInnerStep_eq_of_true (g : List Track) (i : Nat)
    (st : Bool × List Nat × List String) (j : Nat) (ti tj : Track)
    (hi : g[i]? = some ti) (hj : g[j]? = some tj) (hp : pairConfirmed ti tj = true) :
    dupInnerStep g i st j =
      (true, insertNat j st.2.1, insertStr tj.TrackID (insertStr ti.TrackID st.2.2)) := by
  unfold dupInnerStep
  rw [hi, hj]
  simp [hp]

theorem dupInnerStep_eq_of_false (g : List Track) (i : Nat)
    (st : Bool × List Nat × List String) (j : Nat) (hp : pairAt g i j = false) :
    dupInnerStep g i st j = st := by
  unfold dupInnerStep
  unfold pairAt at hp
  rcases hi : g[i]? with _ | ti
  · rfl
  · rcases hj : g[j]? with _ | tj
    · rfl
    · rw [hi, hj] at hp
      have hp2 : pairConfirmed ti tj = false := by simpa using hp
      simp [hp2]

/-- Characterization of the inner `j` loop: the flag records whether
some pair with row `i` was confirmed, and the processed set gains
exactly the confirmed `j` indices. -/
theorem dupInner_fold (g : List Track) (i : Nat) (js : List Nat) :
    ∀ (d : Bool) (pr : List Nat) (ids : List String),
    ((js.foldl (dupInnerStep g i) (d, pr, ids)).1 =
      (d || js.any (fun j => pairAt g i j)))
    ∧ (∀ x, x ∈ (js.foldl (dupInnerStep g i) (d, pr, ids)).2.1 ↔
        x ∈ pr ∨ (x ∈ js ∧ pairAt g i x = true)) := by
  induction js with
  | nil => simp
  | cons j js ih =>
    intro d pr ids
    by_cases hp : pairAt g i j = true
    · have hlt := pairAt_lt g i j hp
      rcases hgi : g[i]? with _ | ti
      · rw [List.getElem?_eq_none_iff] at hgi
        omega
      · rcases hgj : g[j]? with _ | tj
        · rw [List.getElem?_eq_none_iff] at hgj
          omega
        · have hpc : pairConfirmed ti tj = true := by
            unfold pairAt at hp
            rw [hgi, hgj] at hp
            exact hp
          simp only [List.foldl_cons,
            dupInnerStep_eq_of_true g i (d, pr, ids) j ti tj hgi hgj hpc]
          obtain ⟨h1, h2⟩ := ih true (insertNat j pr)
            (insertStr tj.TrackID (insertStr ti.TrackID ids))
          refine ⟨by simp [h1, hp], fun x => ?_⟩
          rw [h2 x, mem_insertNat]
          constructor
          · rintro ((hx | rfl) | ⟨hx, hpa⟩)
            · exact Or.inl hx
            · exact Or.inr ⟨by simp, hp⟩
            · exact Or.inr ⟨by simp [hx], hpa⟩
          · rintro (hx | ⟨hx, hpa⟩)
            · exact Or.inl (Or.inl hx)
            · rcases List.mem_cons.mp hx with rfl | hx
              · exact Or.inl (Or.inr rfl)
              · exact Or.inr ⟨hx, hpa⟩
    · have hp' : pairAt g i j = false := by
        cases h : pairAt g i j
        · rfl
        · exact absurd h hp
      simp only [List.foldl_cons, dupInnerStep_eq_of_false g i (d, pr, ids) j hp']
      obtain ⟨h1, h2⟩ := ih d pr ids
      refine ⟨by simp [h1, hp'], fun x => ?_⟩
      rw [h2 x]
      constructor
      · rintro (hx | ⟨hx, hpa⟩)
        · exact Or.inl hx
        · exact Or.inr ⟨by simp [hx], hpa⟩
      · rintro (hx | ⟨hx, hpa⟩)
        · exact Or.inl hx
        · rcases List.mem_cons.mp hx with rfl | hx
          · exact absurd hpa hp
          · exact Or.inr ⟨hx, hpa⟩

theorem hasPartner_iff (g : List Track) (i : Nat) :
    hasPartner g i = true ↔ ∃ j, j ≠ i ∧ pairAt g i j = true := by
  unfold hasPartner
  rw [List.any_eq_true]
  constructor
  · rintro ⟨j, _, hj⟩
    rw [Bool.and_eq_true, decide_eq_true_eq] at hj
    exact ⟨j, hj.1, hj.2⟩
  · rintro ⟨j, hne, hpa⟩
    refine ⟨j, List.mem_range.mpr (pairAt_lt g i j hpa).2, ?_⟩
    rw [Bool.and_eq_true, decide_eq_true_eq]
    exact ⟨hne, hpa⟩

/-- Characterization of the outer `i` loop of one bucket: starting at
row `i` with a processed set holding exactly the pairs found by rows
below `i`, the confirmed list gains exactly the rows with a partner. -/
theorem dupOuter_fold (g : List Track) :
    ∀ (k i : Nat), i + k = g.length →
    ∀ (pr : List Nat) (ids : List String) (conf : List Track),
    (∀ x, x ∈ pr ↔ ∃ i', i' < i ∧ i' < x ∧ pairAt g i' x = true) →
    ((List.range' i k).foldl (dupOuterStep g) (pr, ids, conf)).2.2 =
      conf ++ ((List.range' i k).filter (fun j => hasPartner g j)).filterMap
        (fun j => g[j]?) := by
  intro k
  induction k with
  | zero =>
    intro i hik pr ids conf hpr
    simp
  | succ k ih =>
    intro i hik pr ids conf hpr
    rw [List.range'_succ]
    simp only [List.foldl_cons, List.filter_cons]
    have hilt : i < g.length := by omega
    obtain ⟨ti, hti⟩ : ∃ ti, g[i]? = some ti := by
      rcases hgi : g[i]? with _ | ti
      · rw [List.getElem?_eq_none_iff] at hgi
        omega
      · exact ⟨ti, rfl⟩
    have hklen : g.length - (i + 1) = k := by omega
    have hstep : dupOuterStep g (pr, ids, conf) i =
        dupOuterFinish g conf i
          ((List.range' (i + 1) k).foldl (dupInnerStep g i) (false, pr, ids)) := by
      unfold dupOuterStep
      rw [hklen]
    obtain ⟨hf1, hf2⟩ := dupInner_fold g i (List.range' (i + 1) k) false pr ids
    have hfin : dupOuterFinish g conf i
        ((List.range' (i + 1) k).foldl (dupInnerStep g i) (false, pr, ids)) =
        if ((List.range' (i + 1) k).foldl (dupInnerStep g i) (false, pr, ids)).1 = true ∨
            i ∈ ((List.range' (i + 1) k).foldl (dupInnerStep g i) (false, pr, ids)).2.1
        then (((List.range' (i + 1) k).foldl (dupInnerStep g i) (false, pr, ids)).2.1,
          ((List.range' (i + 1) k).foldl (dupInnerStep g i) (false, pr, ids)).2.2,
          conf ++ [ti])
        else (((List.range' (i + 1) k).foldl (dupInnerStep g i) (false, pr, ids)).2.1,
          ((List.range' (i + 1) k).foldl (dupInnerStep g i) (false, pr, ids)).2.2,
          conf) := by
      unfold dupOuterFinish
      rw [hti]
    have hcond : (((List.range' (i + 1) k).foldl (dupInnerStep g i)
          (false, pr, ids)).1 = true ∨
        i ∈ ((List.range' (i + 1) k).foldl (dupInnerStep g i) (false, pr, ids)).2.1) ↔
        hasPartner g i = true := by
      constructor
      · rintro (h | h)
        · rw [hf1] at h
          simp only [Bool.false_or] at h
          rw [List.any_eq_true] at h
          obtain ⟨j, hj, hpa⟩ := h
          rw [List.mem_range'_1] at hj
          rw [hasPartner_iff]
          exact ⟨j, by omega, hpa⟩
        · rw [hf2] at h
          rcases h with h | ⟨hj, hpa⟩
          · obtain ⟨i', hi1, hi2, hpa⟩ := (hpr i).mp h
            rw [hasPartner_iff]
            refine ⟨i', by omega, ?_⟩
            rw [pairAt_symm]
            exact hpa
          · rw [List.mem_range'_1] at hj
            omega
      · intro h
        rw [hasPartner_iff] at h
        obtain ⟨j, hne, hpa⟩ := h
        have hjlt := (pairAt_lt g i j hpa).2
        by_cases hij : i < j
        · left
          rw [hf1]
          simp only [Bool.false_or]
          rw [List.any_eq_true]
          exact ⟨j, List.mem_range'_1.mpr ⟨by omega, by omega⟩, hpa⟩
        · right
          rw [hf2]
          left
          refine (hpr i).mpr ⟨j, by omega, by omega, ?_⟩
          rw [pairAt_symm]
          exact hpa
    have hpr2 : ∀ x, x ∈ ((List.range' (i + 1) k).foldl (dupInnerStep g i)
        (false, pr, ids)).2.1 ↔
        ∃ i', i' < i + 1 ∧ i' < x ∧ pairAt g i' x = true := by
      intro x
      rw [hf2]
      constructor
      · rintro (hx | ⟨hx, hpa⟩)
        · obtain ⟨i', h1, h2, h3⟩ := (hpr x).mp hx
          exact ⟨i', by omega, h2, h3⟩
        · rw [List.mem_range'_1] at hx
          exact ⟨i, by omega, by omega, hpa⟩
      · rintro ⟨i', h1, h2, h3⟩
        by_cases hii : i' < i
        · exact Or.inl ((hpr x).mpr ⟨i', hii, h2, h3⟩)
        · have hieq : i' = i := by omega
          subst hieq
          have hxlt := (pairAt_lt g i' x h3).2
          exact Or.inr ⟨List.mem_range'_1.mpr ⟨by omega, by omega⟩, h3⟩
    rw [hstep, hfin]
    by_cases hc : ((List.range' (i + 1) k).foldl (dupInnerStep g i)
          (false, pr, ids)).1 = true ∨
        i ∈ ((List.range' (i + 1) k).foldl (dupInnerStep g i) (false, pr, ids)).2.1
    · have hhp : hasPartner g i = true := hcond.mp hc
      rw [if_pos hc, ih (i + 1) (by omega) _ _ _ hpr2]
      simp [hhp, hti, List.filterMap_cons, List.append_assoc]
    · have hhp : hasPartner g i = false := by
        cases hh : hasPartner g i
        · rfl
        · exact absurd (hcond.mpr hh) hc
      rw [if_neg hc, ih (i + 1) (by omega) _ _ _ hpr2]
      simp [hhp]

theorem scanBucket_snd (g : List Track) (ids : List String) :
    (scanBucket g ids).2 = confirmedMembers g := by
  unfold scanBucket confirmedMembers
  rw [List.range_eq_range']
  have h := dupOuter_fold g g.length 0 (by omega) [] ids [] (by simp)
  simpa using h

/-- Spec-side per-fingerprint group: present exactly when the bucket has
at least 2 tracks and at least 2 confirmed members. -/
def dupGroupF (tracks : List Track) (f : String) : Option DuplicateGroup :=
  if 2 ≤ (bucketOf tracks f).length ∧
      2 ≤ (confirmedMembers (bucketOf tracks f)).length
  then some ⟨f, confirmedMembers (bucketOf tracks f)⟩ else none

theorem findDup_fold_groups (tracks : List Track) (fs : List String) :
    ∀ (ids : List String) (groups : List DuplicateGroup),
    (fs.foldl (findDupStep tracks) (ids, groups)).2 =
      groups ++ fs.filterMap (dupGroupF tracks) := by
  induction fs with
  | nil =>
    intro ids groups
    simp
  | cons f fs ih =>
    intro ids groups
    simp only [List.foldl_cons, List.filterMap_cons]
    by_cases hlen : (bucketOf tracks f).length < 2
    · have hstep : findDupStep tracks (ids, groups) f = (ids, groups) := by
        unfold findDupStep
        simp [hlen]
      have hF : dupGroupF tracks f = none := by
        unfold dupGroupF
        rw [if_neg]
        intro hcc
        omega
      rw [hstep, hF, ih]
    · by_cases hconf : 1 < (confirmedMembers (bucketOf tracks f)).length
      · have hstep : findDupStep tracks (ids, groups) f =
            ((scanBucket (bucketOf tracks f) ids).1,
              groups ++ [⟨f, confirmedMembers (bucketOf tracks f)⟩]) := by
          unfold findDupStep
          simp [hlen, scanBucket_snd, hconf]
        have hF : dupGroupF tracks f =
            some ⟨f, confirmedMembers (bucketOf tracks f)⟩ := by
          unfold dupGroupF
          rw [if_pos ⟨by omega, by omega⟩]
        rw [hstep, hF, ih]
        simp
      · have hstep : findDupStep tracks (ids, groups) f =
            ((scanBucket (bucketOf tracks f) ids).1, groups) := by
          unfold findDupStep
          simp [hlen, scanBucket_snd, hconf]
        have hF : dupGroupF tracks f = none := by
          unfold dupGroupF
          rw [if_neg]
          intro hcc
          omega
        rw [hstep, hF, ih]

theorem findDuplicates_groups_eq (tracks : List Track) :
    (findDuplicates tracks).groups =
      (fingerprintsOf tracks).filterMap (dupGroupF tracks) := by
  unfold findDuplicates
  have h := findDup_fold_groups tracks (fingerprintsOf tracks) [] []
  simpa using h

theorem insertStr_nodup (s : String) (l : List String) (h : l.Nodup) :
    (insertStr s l).Nodup := by
  unfold insertStr
  split
  · exact h
  · rename_i hs
    rw [List.nodup_append]
    refine ⟨h, List.nodup_singleton s, ?_⟩
    intro a ha hmem
    rw [List.mem_singleton] at hmem
    subst hmem
    exact hs ha

theorem fingerprintsOf_nodup (tracks : List Track) : (fingerprintsOf tracks).Nodup := by
  unfold fingerprintsOf
  have hgen : ∀ (fs : List String) (acc : List String), acc.Nodup →
      (fs.foldl (fun acc f => if f = "" then acc else insertStr f acc) acc).Nodup := by
    intro fs
    induction fs with
    | nil =>
      intro acc h
      exact h
    | cons f fs ih =>
      intro acc h
      simp only [List.foldl_cons]
      by_cases hf : f = ""
      · rw [if_pos hf]
        exact ih acc h
      · rw [if_neg hf]
        exact ih _ (insertStr_nodup f acc h)
  exact hgen _ [] List.nodup_nil

theorem dupGroupF_fp (tracks : List Track) (f : String) (grp : DuplicateGroup)
    (h : dupGroupF tracks f = some grp) : grp.fingerprint = f := by
  unfold dupGroupF at h
  split at h
  · simp only [Option.some.injEq] at h
    subst h
    rfl
  · exact absurd h (by simp)

theorem filterMap_fp_count (tracks : List Track) (fs : List String) (f : String) :
    ((fs.filterMap (dupGroupF tracks)).filter
      (fun grp => grp.fingerprint = f)).length ≤ fs.count f := by
  induction fs with
  | nil => simp
  | cons a fs ih =>
    rw [List.count_cons]
    rcases hFa : dupGroupF tracks a with _ | grp
    · simp only [List.filterMap_cons, hFa]
      split <;> omega
    · have hfpa : grp.fingerprint = a := dupGroupF_fp tracks a grp hFa
      simp only [List.filterMap_cons, hFa, List.filter_cons]
      by_cases hg : grp.fingerprint = f
      · have haf : a = f := hfpa.symm.trans hg
        rw [if_pos (by simp [hg]), List.length_cons]
        have hbeq : (a == f) = true := by
          rw [beq_iff_eq]
          exact haf
        rw [hbeq, if_pos rfl]
        omega
      · rw [if_neg (by simp [hg])]
        split <;> omega

theorem mem_confirmedMembers (g : List Track) (t : Track) :
    t ∈ confirmedMembers g ↔ ∃ i, g[i]? = some t ∧ hasPartner g i = true := by
  unfold confirmedMembers
  rw [List.mem_filterMap]
  constructor
  · rintro ⟨i, hi, hgi⟩
    rw [List.mem_filter] at hi
    exact ⟨i, hgi, hi.2⟩
  · rintro ⟨i, hgi, hp⟩
    refine ⟨i, ?_, hgi⟩
    rw [List.mem_filter, List.mem_range]
    exact ⟨(List.getElem?_eq_some.mp hgi).1, hp⟩

/-- C4: in each fingerprint bucket, `findDuplicates` reports as one
group (per fingerprint) exactly the tracks that are on either side of
at least one confirmed pair — both durations nonzero, differing by at
most 2 seconds — and drops groups with fewer than 2 such members. -/
theorem findDuplicates_spec (tracks : List Track) :
    (∀ grp ∈ (findDuplicates tracks).groups,
        grp.fingerprint ∈ fingerprintsOf tracks
        ∧ 2 ≤ (bucketOf tracks grp.fingerprint).length
        ∧ grp.tracks = confirmedMembers (bucketOf tracks grp.fingerprint)
        ∧ 2 ≤ grp.tracks.length)
    ∧ (∀ f, (∃ grp ∈ (findDuplicates tracks).groups, grp.fingerprint = f) ↔
        (f ∈ fingerprintsOf tracks ∧ 2 ≤ (bucketOf tracks f).length ∧
          2 ≤ (confirmedMembers (bucketOf tracks f)).length))
    ∧ (∀ f, ((findDuplicates tracks).groups.filter
        (fun grp => grp.fingerprint = f)).length ≤ 1)
    ∧ (∀ (g : List Track) (t : Track), t ∈ confirmedMembers g ↔
        ∃ i, g[i]? = some t ∧ hasPartner g i = true)
    ∧ (∀ (g : List Track) (i : Nat), hasPartner g i = true ↔
        ∃ j, j ≠ i ∧ pairAt g i j = true) := by
  refine ⟨?_, ?_, ?_, mem_confirmedMembers, hasPartner_iff⟩
  · intro grp hgrp
    rw [findDuplicates_groups_eq, List.mem_filterMap] at hgrp
    obtain ⟨f, hf, hF⟩ := hgrp
    have hfp := dupGroupF_fp tracks f grp hF
    unfold dupGroupF at hF
    split at hF
    · rename_i hcc
      simp only [Option.some.injEq] at hF
      subst hF
      exact ⟨hfp ▸ hf, hfp ▸ hcc.1, by rw [hfp], hfp ▸ hcc.2⟩
    · exact absurd hF (by simp)
  · intro f
    constructor
    · rintro ⟨grp, hgrp, rfl⟩
      rw [findDuplicates_groups_eq, List.mem_filterMap] at hgrp
      obtain ⟨f', hf', hF⟩ := hgrp
      have hfp := dupGroupF_fp tracks f' grp hF
      subst hfp
      unfold dupGroupF at hF
      split at hF
      · rename_i hcc
        exact ⟨hf', hcc.1, hcc.2⟩
      · exact absurd hF (by simp)
    · rintro ⟨hf, h1, h2⟩
      refine ⟨⟨f, confirmedMembers (bucketOf tracks f)⟩, ?_, rfl⟩
      rw [findDuplicates_groups_eq, List.mem_filterMap]
      refine ⟨f, hf, ?_⟩
      unfold dupGroupF
      rw [if_pos ⟨h1, h2⟩]
  · intro f
    rw [findDuplicates_groups_eq]
    calc ((fingerprintsOf tracks).filterMap (dupGroupF tracks)
          |>.filter (fun grp => grp.fingerprint = f)).length ≤
        (fingerprintsOf tracks).count f := filterMap_fp_count tracks _ f
      _ ≤ 1 := List.nodup_iff_count_le_one.mp (fingerprintsOf_nodup tracks) f

def c4A : Track := { TrackID := "A", Name := "Song", Artist := "X", TotalTime := "200" }

def c4B : Track := { TrackID := "B", Name := "Song", Artist := "X", TotalTime := "201" }

def c4C : Track := { TrackID := "C", Name := "Song", Artist := "X", TotalTime := "210" }

def c4B2 : Track := { TrackID := "B", Name := "Song", Artist := "X", TotalTime := "202" }

def c4C2 : Track := { TrackID := "C", Name := "Song", Artist := "X", TotalTime := "204" }

/-- Witness for `findDuplicates_spec`: durations 200/201/210 in one
bucket yield exactly one group with the 200/201 pair (210 excluded),
and the non-transitive chain 200/202/204 yields one group holding all
three; the spec theorem applied at the first group. -/
theorem findDuplicates_spec_witness :
    (findDuplicates [c4A, c4B, c4C]).groups = [⟨"xsong", [c4A, c4B]⟩]
    ∧ (findDuplicates [c4A, c4B2, c4C2]).groups = [⟨"xsong", [c4A, c4B2, c4C2]⟩]
    ∧ (⟨"xsong", [c4A, c4B]⟩ : DuplicateGroup) ∈ (findDuplicates [c4A, c4B, c4C]).groups
    ∧ (("xsong" : String) ∈ fingerprintsOf [c4A, c4B, c4C]
        ∧ 2 ≤ (bucketOf [c4A, c4B, c4C] "xsong").length
        ∧ [c4A, c4B] = confirmedMembers (bucketOf [c4A, c4B, c4C] "xsong")
        ∧ 2 ≤ ([c4A, c4B] : List Track).length) :=
  ⟨by decide, by decide, by decide,
    (findDuplicates_spec [c4A, c4B, c4C]).1 ⟨"xsong", [c4A, c4B]⟩ (by decide)⟩

/-! Batch tagging with auto-escalation (`src/services/ai.ts` variant in
part_003, `generateTagsBatch`, lines 122-278). -/

/-- Parsed successful proxy reply: response items plus usage counters. -/
structure TagResponse where
  items : List RespItem
  promptTokenCount : Nat := 0
  candidatesTokenCount : Nat := 0
deriving Repr, DecidableEq

/-- JS object assignment `resultsMap[id] = v`: overwrite in place or
append. -/
def setResultEntry : List (String × AIAnalysis) → String → AIAnalysis →
    List (String × AIAnalysis)
  | [], k, v => [(k, v)]
  | (k0, v0) :: rest, k, v =>
    if k0 = k then (k, v) :: rest else (k0, v0) :: setResultEntry rest k v

/-- JS object read `resultsMap[id]`. -/
def lookupResult : List (String × AIAnalysis) → String → Option AIAnalysis
  | [], _ => none
  | (k0, v) :: rest, k => if k0 = k then some v else lookupResult rest k

/-- Results map built from the response items (part_003 lines 217-229):
items with a truthy id are validated and inserted, later items
overwriting earlier ones. -/
def buildResults (genreList : List String) (items : List RespItem) :
    List (String × AIAnalysis) :=
  items.foldl (fun m it =>
    if it.id ≠ "" then setResultEntry m it.id (analysisOfItem genreList it) else m) []

/-- Retry condition of the auto-retry block (part_003 lines 237-241): no
result for the track, or a year of `"0"`, `""` or `"Unknown"`. -/
def needsRetry (r : Option AIAnalysis) : Bool :=
  match r with
  | none => true
  | some a => a.year = "0" || a.year = "" || a.year = "Unknown"

/-- Result record mirroring `BatchResponse` plus, as model
instrumentation, the list of proxy requests issued (escalation flag
and submitted track ids) — in the source these are the `fetch` calls. -/
structure BatchResult where
  results : List (String × AIAnalysis)
  inputTokens : Nat
  outputTokens : Nat
  cost : ℚ
  error : Option String
  calls : List (Bool × List String)
deriving Repr, DecidableEq

/-- Per-token cost constants of part_003 lines 207-208, exact rationals
(IEEE float rounding of the source is abstracted; no claim concerns
cost values). -/
def inCostPerToken (isRetry : Bool) : ℚ :=
  if isRetry then 35 / 10000000 else 75 / 1000000000

/-- Output-token cost constant, as `inCostPerToken`. -/
def outCostPerToken (isRetry : Bool) : ℚ :=
  if isRetry then 105 / 10000000 else 30 / 100000000

/-- Successful round of `generateTagsBatch` before the auto-retry block
(part_003 lines 200-232 and 270-274). -/
def roundOf (genreList : List String) (isRetry : Bool) (ids : List String)
    (resp : TagResponse) : BatchResult :=
  let resultsMap := buildResults genreList resp.items
  { results := resultsMap,
    inputTokens := resp.promptTokenCount,
    outputTokens := resp.candidatesTokenCount,
    cost := resp.promptTokenCount * inCostPerToken isRetry +
      resp.candidatesTokenCount * outCostPerToken isRetry,
    error := if resultsMap = [] then some "No data returned" else none,
    calls := [(isRetry, ids)] }

/-- Failed round (the `catch` path, part_003 lines 275-277). -/
def errorRound (isRetry : Bool) (ids : List String) : BatchResult :=
  { results := [], inputTokens := 0, outputTokens := 0, cost := 0,
    error := some "Proxy Error", calls := [(isRetry, ids)] }

/-- One proxy round without the auto-retry block: the behaviour of
`generateTagsBatch` whenever the auto-retry guard
`mode === 'missing_year' && !isRetry` is false.  The oracle is the
external proxy (not part of this repository): `none` models a thrown
fetch / non-success reply. -/
def tagsBatchRound (oracle : Bool → List String → Option TagResponse)
    (mainGenres : List String) (tracks : List Track) (mode : EnrichMode)
    (isRetry : Bool) : BatchResult :=
  let ids := tracks.map (fun t => t.TrackID)
  match oracle isRetry ids with
  | none => errorRound isRetry ids
  | some resp =>
    roundOf (if mode = .missing_genre then mainGenres else MICRO_GENRE_TAGS)
      isRetry ids resp

/-- Merge of the escalated results into the first round (part_003 lines
250-266): `Object.assign` overwrite, additive usage/cost, error
cleared. -/
def mergeRetry (base retry : BatchResult) : BatchResult :=
  { results := retry.results.foldl (fun m kv => setResultEntry m kv.1 kv.2) base.results,
    inputTokens := base.inputTokens + retry.inputTokens,
    outputTokens := base.outputTokens + retry.outputTokens,
    cost := base.cost + retry.cost,
    error := none,
    calls := base.calls ++ retry.calls }

/-- Embedding of `generateTagsBatch` (part_003 lines 122-278).  The JS
function is recursive, but the recursive call passes `isRetry = true`,
for which the auto-retry guard `!isRetry` is false, so the recursion
is unrolled into one escalation step (`generateTagsBatch_retry_flat`
below proves the unrolling faithful: with `isRetry = true` the
function is exactly one round).  `mainGenres` stands for
`MAIN_GENRE_TAGS`, whose defining module is not among the sources. -/
def generateTagsBatch (oracle : Bool → List String → Option TagResponse)
    (mainGenres : List String) (tracks : List Track) (mode : EnrichMode)
    (isRetry : Bool) : BatchResult :=
  let ids := tracks.map (fun t => t.TrackID)
  match oracle isRetry ids with
  | none => errorRound isRetry ids
  | some resp =>
    let genreList := if mode = .missing_genre then mainGenres else MICRO_GENRE_TAGS
    let base := roundOf genreList isRetry ids resp
    if mode = .missing_year ∧ isRetry = false then
      let failedIds := (tracks.filter (fun t =>
        needsRetry (lookupResult base.results t.TrackID))).map (fun t => t.TrackID)
      if 0 < failedIds.length then
        let retryTracks := tracks.filter (fun t => t.TrackID ∈ failedIds)
        mergeRetry base (tagsBatchRound oracle mainGenres retryTracks mode true)
      else base
    else base

/-- With the escalation flag set the function performs exactly one
round: the guard `!isRetry` of the auto-retry block is false, so no
further escalation is possible. -/
theorem generateTagsBatch_retry_flat (oracle : Bool → List String → Option TagResponse)
    (mainGenres : List String) (tracks : List Track) (mode : EnrichMode) :
    generateTagsBatch oracle mainGenres tracks mode true =
      tagsBatchRound oracle mainGenres tracks mode true := by
  unfold generateTagsBatch tagsBatchRound
  rcases h : oracle true (tracks.map (fun t => t.TrackID)) with _ | resp <;>
    simp [h]

theorem tagsBatchRound_calls (oracle : Bool → List String → Option TagResponse)
    (mainGenres : List String) (tr : List Track) (mode : EnrichMode) (b : Bool) :
    (tagsBatchRound oracle mainGenres tr mode b).calls =
      [(b, tr.map (fun t => t.TrackID))] := by
  unfold tagsBatchRound
  rcases h : oracle b (tr.map (fun t => t.TrackID)) with _ | resp <;>
    simp [h, errorRound, roundOf]

/-- The ids of the re-filtered retry tracks are exactly the failed ids:
the retry condition depends on the track only through its id. -/
theorem retryTracks_ids (tracks : List Track) (p : String → Bool) :
    (tracks.filter (fun t => t.TrackID ∈
        (tracks.filter (fun t' => p t'.TrackID)).map (fun t' => t'.TrackID))).map
      (fun t => t.TrackID) =
    (tracks.filter (fun t => p t.TrackID)).map (fun t => t.TrackID) := by
  congr 1
  apply List.filter_congr
  intro t ht
  have hiff : (t.TrackID ∈ (tracks.filter (fun t' => p t'.TrackID)).map
      (fun t' => t'.TrackID)) ↔ p t.TrackID = true := by
    constructor
    · intro hmem
      obtain ⟨t', ht', heq⟩ := List.mem_map.mp hmem
      rw [List.mem_filter] at ht'
      rw [← heq]
      exact ht'.2
    · intro hp
      exact List.mem_map.mpr ⟨t, List.mem_filter.mpr ⟨ht, hp⟩, rfl⟩
  simp [hiff]

theorem mergeRetry_calls (b r : BatchResult) :
    (mergeRetry b r).calls = b.calls ++ r.calls := rfl

theorem roundOf_calls (gl : List String) (b : Bool) (ids : List String)
    (resp : TagResponse) : (roundOf gl b ids resp).calls = [(b, ids)] := rfl

theorem roundOf_results (gl : List String) (b : Bool) (ids : List String)
    (resp : TagResponse) : (roundOf gl b ids resp).results = buildResults gl resp.items :=
  rfl

/-- C6 (amended): in `missing_year` mode `generateTagsBatch` escalates at
most once and terminates on every input (it is a total function); the
escalated request is issued exactly for the subset of tracks whose
first-pass year result was missing, empty, `"0"` or `"Unknown"`; and
a call with the escalation flag already set performs exactly one
request, never escalating further. -/
theorem generateTagsBatch_escalation_spec
    (oracle : Bool → List String → Option TagResponse) (mainGenres : List String)
    (tracks : List Track) :
    ((generateTagsBatch oracle mainGenres tracks .missing_year false).calls.length ≤ 2)
    ∧ (∀ entry, (generateTagsBatch oracle mainGenres tracks
          .missing_year false).calls.drop 1 = [entry] →
        entry.1 = true ∧
        ∃ resp, oracle false (tracks.map (fun t => t.TrackID)) = some resp ∧
          entry.2 = (tracks.filter (fun t => needsRetry (lookupResult
            (buildResults MICRO_GENRE_TAGS resp.items) t.TrackID))).map
            (fun t => t.TrackID))
    ∧ (∀ (tr : List Track) (mode : EnrichMode),
        (generateTagsBatch oracle mainGenres tr mode true).calls.length = 1) := by
  have hgl : (if EnrichMode.missing_year = EnrichMode.missing_genre
      then mainGenres else MICRO_GENRE_TAGS) = MICRO_GENRE_TAGS := by
    rw [if_neg]
    intro hc
    cases hc
  refine ⟨?_, ?_, ?_⟩
  · rcases h : oracle false (tracks.map (fun t => t.TrackID)) with _ | resp
    · unfold generateTagsBatch
      simp [h, errorRound]
    · unfold generateTagsBatch
      simp only [h]
      rw [if_pos (⟨trivial, trivial⟩ : True ∧ True)]
      simp only [hgl]
      split
      · rw [mergeRetry_calls, tagsBatchRound_calls, roundOf_calls]
        simp
      · rw [roundOf_calls]
        simp
  · intro entry he
    rcases h : oracle false (tracks.map (fun t => t.TrackID)) with _ | resp
    · unfold generateTagsBatch at he
      simp [h, errorRound] at he
    · unfold generateTagsBatch at he
      simp only [h] at he
      rw [if_pos (⟨trivial, trivial⟩ : True ∧ True)] at he
      simp only [hgl] at he
      split at he
      · rw [mergeRetry_calls, tagsBatchRound_calls, roundOf_calls] at he
        simp only [List.cons_append, List.nil_append, List.drop_succ_cons,
          List.drop_zero] at he
        simp only [roundOf_results, hgl] at he
        have hentry : entry = (true, (tracks.filter (fun t => t.TrackID ∈
            (tracks.filter (fun t' => needsRetry (lookupResult
              (buildResults MICRO_GENRE_TAGS resp.items) t'.TrackID))).map
              (fun t' => t'.TrackID))).map (fun t => t.TrackID)) := by
          simpa using he.symm
        subst hentry
        refine ⟨rfl, resp, h, ?_⟩
        exact retryTracks_ids tracks
          (fun id => needsRetry (lookupResult (buildResults MICRO_GENRE_TAGS resp.items) id))
      · rw [roundOf_calls] at he
        simp at he
  · intro tr mode
    rw [generateTagsBatch_retry_flat, tagsBatchRound_calls]
    rfl

/-- Oracle whose first pass answers the year `"Unknown"` and whose
escalated pass answers `"1999"`. -/
def c6Oracle : Bool → List String → Option TagResponse :=
  fun isRetry _ =>
    if isRetry then some { items := [{ id := "1", release_year := "1999" }] }
    else some { items := [{ id := "1", release_year := "Unknown" }] }

def c6Track : Track := { TrackID := "1", Name := "Mystery", Artist := "Y" }

/-- Counterexample to C6 as stated: the escalated call is also issued
for a track whose first-pass year result is the present, non-empty,
non-`"0"` string `"Unknown"` (part_003 line 240 also retries on
`"Unknown"`). -/
theorem generateTagsBatch_escalation_counterexample :
    (generateTagsBatch c6Oracle [] [c6Track] .missing_year false).calls =
      [(false, ["1"]), (true, ["1"])]
    ∧ lookupResult (buildResults MICRO_GENRE_TAGS
        [{ id := "1", release_year := "Unknown" }]) "1" =
      some { vibe := "Unknown", genre := "Unknown", situation := "Unknown",
             year := "Unknown" }
    ∧ ("Unknown" : String) ≠ "" ∧ ("Unknown" : String) ≠ "0" :=
  ⟨by decide, by decide, by decide, by decide⟩

/-- Witness for `generateTagsBatch_escalation_spec` on the concrete
oracle above. -/
theorem generateTagsBatch_escalation_spec_witness :
    ((generateTagsBatch c6Oracle [] [c6Track] .missing_year false).calls.drop 1 =
      [((true : Bool), (["1"] : List String))])
    ∧ (((true : Bool), (["1"] : List String)).1 = true ∧
        ∃ resp, c6Oracle false ([c6Track].map (fun t => t.TrackID)) = some resp ∧
          ((true : Bool), (["1"] : List String)).2 = ([c6Track].filter (fun t =>
            needsRetry (lookupResult (buildResults MICRO_GENRE_TAGS resp.items)
              t.TrackID))).map (fun t => t.TrackID)) :=
  ⟨by decide, (generateTagsBatch_escalation_spec c6Oracle [] [c6Track]).2.1
    (true, ["1"]) (by decide)⟩


/-! ### C7: processBatch retry scheduling (src/App.tsx lines 564-574, 659-715) -/

/-- Fuel-based worker for `chunkArray`; each step takes one slice of
`size` elements and recurses on the rest.  Fuel `l.length` suffices
since for `size ≥ 1` every step strictly shortens the list. -/
def chunkArrayAux {α : Type} (size : Nat) : Nat → List α → List (List α)
  | _, [] => []
  | 0, _ => []
  | fuel + 1, l => l.take size :: chunkArrayAux size fuel (l.drop size)

/-- Embedding of `chunkArray` (src/unnamed/part_006 lines 3-9): slice
the array into consecutive chunks of at most `size` elements.  The
source's `for (let i = 0; i < array.length; i += size)` does not
terminate for `size = 0`; both call sites pass the positive literals
200 and 50, and the model returns `[]` on that dead branch. -/
def chunkArray {α : Type} (array : List α) (size : Nat) : List (List α) :=
  if size = 0 then [] else chunkArrayAux size array.length array

/-- The scheduling parameters of `processBatch` (src/App.tsx lines
564-574): chunk size and concurrency width of the primary pass, chunk
size of the retry pass, and the concurrency width of the retry pass,
which is the hard-coded literal 8 of `runConcurrent(retryTasks, 8)`
(line 714). -/
structure BatchPlan where
  chunkSize : Nat
  concurrency : Nat
  retryChunkSize : Nat
  retryConcurrency : Nat
deriving Repr, DecidableEq

/-- The constants `processBatch` computes from `isElectron`
(src/App.tsx lines 567-570 and 714): `CHUNK_SIZE = isElectron ? 200 :
200`, `CONCURRENCY = isElectron ? 2 : 8`, `RETRY_CHUNK_SIZE = 50`, and
the retry pass runs at width 8. -/
def processBatchPlan (isElectron : Bool) : BatchPlan :=
  { chunkSize := if isElectron then 200 else 200
    concurrency := if isElectron then 2 else 8
    retryChunkSize := 50
    retryConcurrency := 8 }

theorem chunkArrayAux_mem_length {α : Type} (size fuel : Nat) (l : List α)
    (c : List α) (hc : c ∈ chunkArrayAux size fuel l) : c.length ≤ size := by
  induction fuel generalizing l with
  | zero => cases l <;> simp [chunkArrayAux] at hc
  | succ n ih =>
    cases l with
    | nil => simp [chunkArrayAux] at hc
    | cons a t =>
      simp only [chunkArrayAux, List.mem_cons] at hc
      rcases hc with rfl | hc
      · exact List.length_take_le _ _
      · exact ih _ hc

/-- Every chunk produced by `chunkArray` has at most `size` elements. -/
theorem chunkArray_mem_length {α : Type} (array : List α) (size : Nat)
    (c : List α) (hc : c ∈ chunkArray array size) : c.length ≤ size := by
  unfold chunkArray at hc
  split at hc
  · simp at hc
  · exact chunkArrayAux_mem_length _ _ _ _ hc

/-- `chunkArray` of a non-empty list at a positive size is non-empty
(the primary loop body runs at least once). -/
theorem chunkArray_ne_nil {α : Type} (array : List α) (size : Nat)
    (hs : size ≠ 0) (ha : array ≠ []) : chunkArray array size ≠ [] := by
  unfold chunkArray
  rw [if_neg hs]
  cases array with
  | nil => exact absurd rfl ha
  | cons a t => simp [chunkArrayAux]

/-- C7 (corrected): whenever the retry queue is non-empty, `processBatch`
re-chunks it via `chunkArray` at the retry chunk size 50, strictly
smaller than the primary chunk size 200 in both environments, and runs
the (non-empty) retry chunks at the hard-coded width 8 — which is NOT
strictly lower than the primary width: the primary width is 2 in
Electron and 8 in the browser, so the retry width is never below it. -/
theorem processBatch_retry_plan (isElectron : Bool) (retryQueue : List Track)
    (hne : retryQueue ≠ []) :
    (processBatchPlan isElectron).retryChunkSize <
      (processBatchPlan isElectron).chunkSize
    ∧ (∀ c ∈ chunkArray retryQueue (processBatchPlan isElectron).retryChunkSize,
        c.length ≤ 50)
    ∧ chunkArray retryQueue (processBatchPlan isElectron).retryChunkSize ≠ []
    ∧ (processBatchPlan isElectron).retryConcurrency = 8
    ∧ (processBatchPlan isElectron).concurrency ≤
        (processBatchPlan isElectron).retryConcurrency := by
  refine ⟨?_, ?_, ?_, rfl, ?_⟩
  · cases isElectron <;> decide
  · intro c hc
    exact chunkArray_mem_length _ _ _ hc
  · exact chunkArray_ne_nil _ _ (by cases isElectron <;> decide) hne
  · cases isElectron <;> decide

def c7Track : Track := { TrackID := "9", Name := "Solo", Artist := "Z" }

/-- Counterexample to C7 as stated: the retry concurrency width is the
hard-coded 8, which is equal to the primary width in the browser and
above it in Electron — never strictly lower. -/
theorem processBatch_retry_concurrency_counterexample :
    ¬ ((processBatchPlan false).retryConcurrency <
        (processBatchPlan false).concurrency)
    ∧ ¬ ((processBatchPlan true).retryConcurrency <
        (processBatchPlan true).concurrency)
    ∧ (processBatchPlan false).concurrency = 8
    ∧ (processBatchPlan true).concurrency = 2
    ∧ (processBatchPlan false).retryConcurrency = 8
    ∧ (processBatchPlan true).retryConcurrency = 8 := by
  decide

/-- Witness for `processBatch_retry_plan` at `isElectron = false` and a
one-element retry queue. -/
theorem processBatch_retry_plan_witness :
    (([c7Track] : List Track) ≠ [])
    ∧ ((processBatchPlan false).retryChunkSize <
        (processBatchPlan false).chunkSize
      ∧ (∀ c ∈ chunkArray [c7Track] (processBatchPlan false).retryChunkSize,
          c.length ≤ 50)
      ∧ chunkArray [c7Track] (processBatchPlan false).retryChunkSize ≠ []
      ∧ (processBatchPlan false).retryConcurrency = 8
      ∧ (processBatchPlan false).concurrency ≤
          (processBatchPlan false).retryConcurrency) :=
  ⟨by decide, processBatch_retry_plan false [c7Track] (by decide)⟩

/-! ### C8: energy fallback chain in parseRekordboxXML (parser.ts lines 197-253) -/

/-- Case-insensitive match of an ASCII pattern at the head of the input
(the JS `i` flag; no non-ASCII character case-folds into `ENERGY`, so
ASCII folding is exact for these patterns): returns the rest of the
input after the pattern. -/
def matchCI : List Char → List Char → Option (List Char)
  | [], rest => some rest
  | _ :: _, [] => none
  | p :: ps, c :: cs => if c.toLower = p then matchCI ps cs else none

def energyWord : List Char := ['e', 'n', 'e', 'r', 'g', 'y']

/-- The regex `/Energy\s+(\d+)/i` anchored at the head of the input,
returning the captured digit run.  `\s+` and `\d+` are greedy and `\s`
and `\d` are disjoint character classes, so no backtracking can ever
succeed and the maximal runs are the exact match. -/
def energyCueAt (l : List Char) : Option (List Char) :=
  match matchCI energyWord l with
  | none => none
  | some r1 =>
    if (r1.takeWhile isJsWs).isEmpty then none
    else
      if ((r1.dropWhile isJsWs).takeWhile Char.isDigit).isEmpty then none
      else some ((r1.dropWhile isJsWs).takeWhile Char.isDigit)

/-- JS `name.match(/Energy\s+(\d+)/i)`: the leftmost match wins. -/
def findEnergyCue : List Char → Option (List Char)
  | [] => none
  | c :: cs =>
    match energyCueAt (c :: cs) with
    | some ds => some ds
    | none => findEnergyCue cs

/-- The regex `/Energy\s*:\s*(\d+)/i` anchored at the head of the
input: optional whitespace, a colon, optional whitespace, then the
captured digit run (`\s` matches neither `:` nor a digit, so the
greedy maximal runs are again exact). -/
def energyCommentAt (l : List Char) : Option (List Char) :=
  match matchCI energyWord l with
  | none => none
  | some r1 =>
    match r1.dropWhile isJsWs with
    | ':' :: r2 =>
      if ((r2.dropWhile isJsWs).takeWhile Char.isDigit).isEmpty then none
      else some ((r2.dropWhile isJsWs).takeWhile Char.isDigit)
    | _ => none

/-- JS `comments.match(/Energy\s*:\s*(\d+)/i)`: the leftmost match. -/
def findEnergyComment : List Char → Option (List Char)
  | [] => none
  | c :: cs =>
    match energyCommentAt (c :: cs) with
    | some ds => some ds
    | none => findEnergyComment cs

/-- `parseInt(match[1], 10)` on a captured all-digit run. -/
def digitsVal (l : List Char) : Nat :=
  l.foldl (fun acc c => acc * 10 + (c.toNat - 48)) 0

/-- Energy contribution of one TRACK child node (parser.ts lines
203-217): a POSITION_MARK whose `@_Name` attribute is present and
truthy and matches `/Energy\s+(\d+)/i` contributes its parsed capture
to `energyValues`. -/
def cueEnergyOf (node : XNode) : Option Nat :=
  if node.tag = "POSITION_MARK" then
    match node.attrs with
    | none => none
    | some pmAttr =>
      match getAttr pmAttr "@_Name" with
      | none => none
      | some nm =>
        if nm = "" then none
        else (findEnergyCue nm.toList).map digitsVal
  else none

/-- `counts[val] = (counts[val] || 0) + 1` on the JS counts object
(the object is only ever read back pointwise, so an
overwrite-in-place association list is an exact model). -/
def bumpCount : List (Nat × Nat) → Nat → List (Nat × Nat)
  | [], v => [(v, 1)]
  | (k, c) :: rest, v =>
    if k = v then (k, c + 1) :: rest else (k, c) :: bumpCount rest v

/-- `counts[val] || 0`. -/
def lookupCount : List (Nat × Nat) → Nat → Nat
  | [], _ => 0
  | (k, c) :: rest, v => if k = v then c else lookupCount rest v

/-- The mode loop of parser.ts lines 224-232: bump each value's count
in turn and take over as `modeVal` whenever the bumped count exceeds
the running maximum (`counts[val]` is read back right after the
increment, hence `lookupCount (bumpCount counts v) v`). -/
def modeScan : List Nat → List (Nat × Nat) → Nat → Nat → Nat
  | [], _, _, modeVal => modeVal
  | v :: rest, counts, maxCount, modeVal =>
    if maxCount < lookupCount (bumpCount counts v) v then
      modeScan rest (bumpCount counts v) (lookupCount (bumpCount counts v) v) v
    else modeScan rest (bumpCount counts v) maxCount modeVal

/-- `modeVal` after the loop (`counts = {}`, `maxCount = 0`, `modeVal =
energyValues[0]` before it; the source only enters the block when
`energyValues.length > 0`). -/
def modeOfList (l : List Nat) : Nat :=
  match l with
  | [] => 0
  | v :: _ => modeScan l [] 0 v

/-- Stage 1 of the chain (parser.ts lines 219-234): the mode of the cue
energy values, or the empty (falsy) string when there are none. -/
def energyFromCues (child : XNode) : String :=
  if 0 < (child.children.filterMap cueEnergyOf).length then
    toString (modeOfList (child.children.filterMap cueEnergyOf))
  else ""

/-- Stage 2 (parser.ts lines 237-243): `if (!energy)`, fall back to the
captured digits of `/Energy\s*:\s*(\d+)/i` in the Comments attribute
(`attributes['@_Comments'] || ""`). -/
def energyWithComments (child : XNode) : String :=
  if energyFromCues child = "" then
    match findEnergyComment
        ((getAttr (child.attrs.getD []) "@_Comments").getD "").toList with
    | some ds => String.mk ds
    | none => energyFromCues child
  else energyFromCues child

/-- The full Energy resolution of `parseRekordboxXML` for one TRACK
child node (parser.ts lines 197-253; `attributes = child[':@'] || {}`).
Stage 3: `if (!energy && attributes['@_Rating'])`, parse the rating
and use `Math.round(r / 51)` when it is a number above 0.  In exact
arithmetic that round is `(2 * r + 51) / 102`, and since `2 * r + 51`
is odd the float quotient never sits on a rounding boundary, so the
integer form is exact. -/
def resolveEnergy (child : XNode) : String :=
  if energyWithComments child = "" then
    match getAttr (child.attrs.getD []) "@_Rating" with
    | none => energyWithComments child
    | some rating =>
      if rating = "" then energyWithComments child
      else
        match jsParseInt rating with
        | none => energyWithComments child
        | some r =>
          if 0 < r then toString ((2 * r.toNat + 51) / 102)
          else energyWithComments child
  else energyWithComments child

/-- `m` is a statistical mode of `l`. -/
def isModeOf (m : Nat) (l : List Nat) : Prop :=
  m ∈ l ∧ ∀ v ∈ l, l.count v ≤ l.count m

instance (m : Nat) (l : List Nat) : Decidable (isModeOf m l) := by
  unfold isModeOf
  exact inferInstance

theorem lookupCount_bumpCount (counts : List (Nat × Nat)) (v x : Nat) :
    lookupCount (bumpCount counts v) x =
      if x = v then lookupCount counts v + 1 else lookupCount counts x := by
  induction counts with
  | nil =>
    by_cases h : x = v
    · subst h
      simp [bumpCount, lookupCount]
    · have h2 : ¬ v = x := fun hh => h hh.symm
      simp [bumpCount, lookupCount, h, h2]
  | cons hd tl ih =>
    obtain ⟨k, c⟩ := hd
    simp only [bumpCount]
    by_cases hkv : k = v
    · subst hkv
      simp only [if_pos rfl]
      by_cases hxk : x = k
      · subst hxk
        simp [lookupCount]
      · have h2 : ¬ k = x := fun hh => hxk hh.symm
        simp [lookupCount, hxk, h2]
    · simp only [if_neg hkv]
      by_cases hkx : k = x
      · subst hkx
        simp [lookupCount, hkv]
      · simp [lookupCount, hkv, hkx, ih]

theorem count_append_singleton (p : List Nat) (v x : Nat) :
    (p ++ [v]).count x = p.count x + if v = x then 1 else 0 := by
  by_cases h : v = x
  · subst h
    simp [List.count_append]
  · simp [List.count_append, List.count_cons, h]

theorem modeScan_spec (r : List Nat) :
    ∀ (p : List Nat) (counts : List (Nat × Nat)) (maxCount modeVal : Nat),
    (∀ x, lookupCount counts x = p.count x) →
    (∀ x, p.count x ≤ maxCount) →
    ((p = [] ∧ maxCount = 0) ∨ (modeVal ∈ p ∧ p.count modeVal = maxCount)) →
    (p ≠ [] ∨ r ≠ []) →
    modeScan r counts maxCount modeVal ∈ p ++ r ∧
      ∀ x, (p ++ r).count x ≤ (p ++ r).count (modeScan r counts maxCount modeVal) := by
  induction r with
  | nil =>
    intro p counts maxCount modeVal hcounts hmax hmode hne
    rcases hmode with ⟨hp, _⟩ | ⟨hmem, hcnt⟩
    · subst hp
      rcases hne with h | h <;> exact absurd rfl h
    · simp only [modeScan, List.append_nil]
      exact ⟨hmem, fun x => hcnt ▸ hmax x⟩
  | cons v rest ih =>
    intro p counts maxCount modeVal hcounts hmax hmode _
    have hc : lookupCount (bumpCount counts v) v = p.count v + 1 := by
      rw [lookupCount_bumpCount]
      simp [hcounts]
    have hcounts2 : ∀ x, lookupCount (bumpCount counts v) x = (p ++ [v]).count x := by
      intro x
      rw [lookupCount_bumpCount, count_append_singleton]
      by_cases hx : x = v
      · subst hx
        simp [hcounts]
      · rw [if_neg hx, if_neg (fun hh : v = x => hx hh.symm)]
        simp [hcounts]
    have hsplit : p ++ v :: rest = (p ++ [v]) ++ rest := by simp
    simp only [modeScan, hc]
    by_cases hlt : maxCount < p.count v + 1
    · simp only [if_pos hlt, hsplit]
      refine ih (p ++ [v]) (bumpCount counts v) (p.count v + 1) v hcounts2 ?_ ?_
        (Or.inl (by simp))
      · intro x
        rw [count_append_singleton]
        by_cases hx : v = x
        · rw [if_pos hx]
          subst hx
          omega
        · rw [if_neg hx]
          have h1 := hmax x
          omega
      · refine Or.inr ⟨by simp, ?_⟩
        rw [count_append_singleton]
        simp
    · simp only [if_neg hlt, hsplit]
      refine ih (p ++ [v]) (bumpCount counts v) maxCount modeVal hcounts2 ?_ ?_
        (Or.inl (by simp))
      · intro x
        rw [count_append_singleton]
        by_cases hx : v = x
        · rw [if_pos hx]
          have h2 : p.count v + 1 ≤ maxCount := Nat.le_of_not_lt hlt
          subst hx
          omega
        · rw [if_neg hx]
          have h1 := hmax x
          omega
      · rcases hmode with ⟨hp, hm0⟩ | ⟨hmem, hcnt⟩
        · exfalso
          subst hp
          subst hm0
          simp at hlt
        · refine Or.inr ⟨List.mem_append_left _ hmem, ?_⟩
          rw [count_append_singleton]
          have hne2 : v ≠ modeVal := by
            intro hvm
            subst hvm
            rw [hcnt] at hlt
            exact hlt (Nat.lt_succ_self _)
          simp [hne2, hcnt]

/-- The loop of parser.ts lines 224-232 really computes a statistical
mode: `modeVal` ends up a value of maximal multiplicity. -/
theorem modeOfList_spec (l : List Nat) (h : l ≠ []) : isModeOf (modeOfList l) l := by
  cases l with
  | nil => exact absurd rfl h
  | cons v rest =>
    have hs := modeScan_spec (v :: rest) [] [] 0 v (fun x => by simp [lookupCount])
      (fun x => by simp) (Or.inl ⟨rfl, rfl⟩) (Or.inr (by simp))
    simp only [List.nil_append] at hs
    exact ⟨hs.1, fun x _ => hs.2 x⟩

theorem toDigitsCore_ne_nil (b fuel n : Nat) (acc : List Char) (h : acc ≠ []) :
    Nat.toDigitsCore b fuel n acc ≠ [] := by
  induction fuel generalizing n acc with
  | zero => exact h
  | succ f ih =>
    simp only [Nat.toDigitsCore]
    split
    · simp
    · exact ih _ _ (by simp)

theorem toDigits_ne_nil (b n : Nat) : Nat.toDigits b n ≠ [] := by
  show Nat.toDigitsCore b (n + 1) n [] ≠ []
  simp only [Nat.toDigitsCore]
  split
  · simp
  · exact toDigitsCore_ne_nil _ _ _ _ (by simp)

/-- `modeVal.toString()` for a number is never the falsy empty string,
so stage 1 shuts off the later stages. -/
theorem nat_toString_ne_empty (n : Nat) : toString n ≠ "" := by
  intro h
  have h2 : (Nat.toDigits 10 n).asString = "" := h
  have h3 : Nat.toDigits 10 n = [] := by
    simpa [List.asString] using congrArg String.data h2
  exact toDigits_ne_nil 10 n h3

theorem stringMk_ne_empty (ds : List Char) (h : ds ≠ []) : String.mk ds ≠ "" := by
  intro hc
  exact h (by simpa using congrArg String.data hc)

theorem energyCommentAt_some_ne_nil (l ds : List Char)
    (h : energyCommentAt l = some ds) : ds ≠ [] := by
  unfold energyCommentAt at h
  split at h
  · exact absurd h (by simp)
  · split at h
    · split at h
      · exact absurd h (by simp)
      · rename_i hemp
        rw [Option.some.injEq] at h
        subst h
        simpa using hemp
    · exact absurd h (by simp)

theorem findEnergyComment_some_ne_nil (l ds : List Char)
    (h : findEnergyComment l = some ds) : ds ≠ [] := by
  induction l with
  | nil => simp [findEnergyComment] at h
  | cons c cs ih =>
    unfold findEnergyComment at h
    split at h
    · rename_i ds0 hat
      rw [Option.some.injEq] at h
      subst h
      exact energyCommentAt_some_ne_nil _ _ hat
    · exact ih h

theorem energyFromCues_pos (child : XNode)
    (h : child.children.filterMap cueEnergyOf ≠ []) :
    energyFromCues child =
      toString (modeOfList (child.children.filterMap cueEnergyOf)) := by
  unfold energyFromCues
  rw [if_pos (List.length_pos.mpr h)]

theorem energyFromCues_nil (child : XNode)
    (h : child.children.filterMap cueEnergyOf = []) :
    energyFromCues child = "" := by
  unfold energyFromCues
  rw [if_neg (by simp [h])]

theorem energyWithComments_of_cues (child : XNode)
    (h : child.children.filterMap cueEnergyOf ≠ []) :
    energyWithComments child =
      toString (modeOfList (child.children.filterMap cueEnergyOf)) := by
  unfold energyWithComments
  rw [energyFromCues_pos child h, if_neg (nat_toString_ne_empty _)]

theorem energyWithComments_of_comment (child : XNode) (ds : List Char)
    (hn : child.children.filterMap cueEnergyOf = [])
    (hc : findEnergyComment
        ((getAttr (child.attrs.getD []) "@_Comments").getD "").toList = some ds) :
    energyWithComments child = String.mk ds := by
  unfold energyWithComments
  rw [energyFromCues_nil child hn, if_pos rfl, hc]

theorem energyWithComments_empty (child : XNode)
    (hn : child.children.filterMap cueEnergyOf = [])
    (hc : findEnergyComment
        ((getAttr (child.attrs.getD []) "@_Comments").getD "").toList = none) :
    energyWithComments child = "" := by
  unfold energyWithComments
  rw [energyFromCues_nil child hn, if_pos rfl, hc]

/-- C8: the Energy field of a parsed track node is resolved by an
ordered fallback chain whose first successful source wins.  If at
least one POSITION_MARK child label matches `/Energy\s+(\d+)/i`,
Energy is the statistical mode of the cue values (comments and rating
are not consulted: the result depends only on the children);
otherwise a `/Energy\s*:\s*(\d+)/i` match in the Comments attribute
wins verbatim; otherwise a Rating attribute parsing to a number above
0 yields `Math.round(rating / 51)`; otherwise Energy is empty. -/
theorem parseTrack_energy_fallback (child : XNode) :
    (child.children.filterMap cueEnergyOf ≠ [] →
      resolveEnergy child =
        toString (modeOfList (child.children.filterMap cueEnergyOf))
      ∧ isModeOf (modeOfList (child.children.filterMap cueEnergyOf))
          (child.children.filterMap cueEnergyOf))
    ∧ (child.children.filterMap cueEnergyOf = [] →
      ∀ ds, findEnergyComment
          ((getAttr (child.attrs.getD []) "@_Comments").getD "").toList = some ds →
        resolveEnergy child = String.mk ds)
    ∧ (child.children.filterMap cueEnergyOf = [] →
      findEnergyComment
          ((getAttr (child.attrs.getD []) "@_Comments").getD "").toList = none →
      (∀ rating r, getAttr (child.attrs.getD []) "@_Rating" = some rating →
          jsParseInt rating = some r → 0 < r →
          resolveEnergy child = toString ((2 * r.toNat + 51) / 102))
      ∧ ((¬ ∃ rating r, getAttr (child.attrs.getD []) "@_Rating" = some rating ∧
            jsParseInt rating = some r ∧ 0 < r) →
          resolveEnergy child = "")) := by
  refine ⟨fun hev => ⟨?_, modeOfList_spec _ hev⟩, fun hn ds hc => ?_,
    fun hn hc => ⟨fun rating r hra hp hr => ?_, fun hno => ?_⟩⟩
  · unfold resolveEnergy
    rw [energyWithComments_of_cues child hev, if_neg (nat_toString_ne_empty _)]
  · unfold resolveEnergy
    rw [energyWithComments_of_comment child ds hn hc,
      if_neg (stringMk_ne_empty ds (findEnergyComment_some_ne_nil _ _ hc))]
  · have he := energyWithComments_empty child hn hc
    have hrne : rating ≠ "" := by
      intro hemp
      subst hemp
      simp [jsParseInt, digitsToNat?, List.takeWhile] at hp
    simp [resolveEnergy, he, hra, hp, hrne, hr]
  · have he := energyWithComments_empty child hn hc
    unfold resolveEnergy
    rw [he, if_pos rfl]
    rcases hra : getAttr (child.attrs.getD []) "@_Rating" with _ | rating
    · simp
    · by_cases hrn : rating = ""
      · simp [hrn]
      · rcases hpi : jsParseInt rating with _ | r
        · simp [hrn, hpi]
        · have hr0 : ¬ 0 < r := fun hr => hno ⟨rating, r, hra, hpi, hr⟩
          simp [hrn, hpi, hr0]

def c8Cue (nm : String) : XNode :=
  XNode.mk "POSITION_MARK" (some [("@_Name", nm), ("@_Start", "0.0")]) []

def c8Child : XNode :=
  XNode.mk "TRACK"
    (some [("@_TrackID", "42"), ("@_Comments", "Energy: 3"), ("@_Rating", "204")])
    [c8Cue "Energy 7", XNode.mk "TEMPO" (some [("@_Bpm", "128.00")]) [],
     c8Cue "Energy 6", c8Cue "Energy 7"]

/-- Witness for `parseTrack_energy_fallback`: a track with cue labels
Energy 7, Energy 6, Energy 7 resolves to the mode "7", even though a
Comments pattern and a Rating are also present. -/
theorem parseTrack_energy_fallback_witness :
    (c8Child.children.filterMap cueEnergyOf ≠ []) ∧
    (resolveEnergy c8Child =
        toString (modeOfList (c8Child.children.filterMap cueEnergyOf))
      ∧ isModeOf (modeOfList (c8Child.children.filterMap cueEnergyOf))
          (c8Child.children.filterMap cueEnergyOf)) :=
  ⟨by decide, (parseTrack_energy_fallback c8Child).1 (by decide)⟩

/-! ### C9: generateSmartPlaylists (parser.ts lines 297-421) -/

/-- `if (!map[k]) map[k] = []; map[k].push(id)` on a JS object keyed by
tag name: insertion-ordered, updated in place. -/
def pushGroup : List (String × List String) → String → String → List (String × List String)
  | [], k, id => [(k, [id])]
  | (k0, ids) :: rest, k, id =>
    if k0 = k then (k0, ids ++ [id]) :: rest
    else (k0, ids) :: pushGroup rest k id

/-- `map[key]` for a key produced by the grouping (absent keys never
occur at the call sites). -/
def lookupGroup : List (String × List String) → String → List String
  | [], _ => []
  | (k, ids) :: rest, key => if k = key then ids else lookupGroup rest key

/-- The grouping loop of parser.ts lines 309-330 for one of the three
maps: a track with an Analysis whose selected tag is truthy and not
the "Unknown" sentinel gets its TrackID appended under that tag.  The
three maps never interact, so the single forEach is one independent
fold per map. -/
def groupInto (tracks : List Track) (sel : AIAnalysis → String) :
    List (String × List String) :=
  tracks.foldl (fun m t =>
    match t.Analysis with
    | none => m
    | some a =>
      if sel a ≠ "" ∧ sel a ≠ "Unknown" then pushGroup m (sel a) t.TrackID
      else m) []

/-- Lexicographic comparison used by the JS default array sort on the
group keys (code-unit versus code-point order only differs outside the
BMP, which the ASCII tag vocabulary never reaches). -/
def charListLt : List Char → List Char → Bool
  | [], [] => false
  | [], _ :: _ => true
  | _ :: _, [] => false
  | a :: as, b :: bs =>
    if a.toNat < b.toNat then true
    else if b.toNat < a.toNat then false
    else charListLt as bs

def strLt (a b : String) : Bool := charListLt a.toList b.toList

def insertSorted (k : String) : List String → List String
  | [] => [k]
  | x :: xs => if strLt k x then k :: x :: xs else x :: insertSorted k xs

/-- `Object.keys(map).sort()` (the keys are pairwise distinct, so
stability is irrelevant). -/
def sortedKeys (m : List (String × List String)) : List String :=
  (m.map Prod.fst).foldr insertSorted []

/-- `createFolderNode` (parser.ts lines 331-339): a Type 0 NODE whose
`@_Count` caches the child count. -/
def createFolderNode (name : String) (children : List XNode) : XNode :=
  XNode.mk "NODE"
    (some [("@_Name", name), ("@_Type", "0"),
           ("@_Count", toString children.length)])
    children

/-- `createPlaylistNode` (parser.ts lines 341-356): a Type 1 KeyType 0
NODE whose `@_Entries` caches the track-reference count. -/
def createPlaylistNode (name : String) (trackIds : List String) : XNode :=
  XNode.mk "NODE"
    (some [("@_Name", name), ("@_Type", "1"), ("@_KeyType", "0"),
           ("@_Entries", toString trackIds.length)])
    (trackIds.map (fun id => XNode.mk "TRACK" (some [("@_Key", id)]) []))

/-- `createSubFolderWithPlaylists` (parser.ts lines 358-363): one
playlist per sorted key. -/
def createSubFolderWithPlaylists (folderName : String)
    (m : List (String × List String)) : XNode :=
  createFolderNode folderName
    ((sortedKeys m).map (fun key => createPlaylistNode key (lookupGroup m key)))

/-- The children of the AI_GENERATED folder (parser.ts lines 365-384):
the three tag folders, plus SAVED_SEARCHES pushed at the end when
custom playlists exist, plus [POSSIBLE DUPLICATES] unshifted to the
front when duplicates were detected.  Custom playlists are (name,
trackIds) pairs. -/
def aiRootChildren (tracks : List Track) (duplicateIds : List String)
    (customPlaylists : List (String × List String)) : List XNode :=
  (if 0 < duplicateIds.length then
    [createPlaylistNode "[POSSIBLE DUPLICATES]" duplicateIds]
  else [])
  ++ [createSubFolderWithPlaylists "Vibes" (groupInto tracks (fun a => a.vibe)),
      createSubFolderWithPlaylists "Genres" (groupInto tracks (fun a => a.genre)),
      createSubFolderWithPlaylists "Situations"
        (groupInto tracks (fun a => a.situation))]
  ++ (if 0 < customPlaylists.length then
    [createFolderNode "SAVED_SEARCHES"
      (customPlaylists.map (fun cp => createPlaylistNode cp.1 cp.2))]
  else [])

/-- `aiRootNode` (parser.ts line 386). -/
def aiRootNode (tracks : List Track) (duplicateIds : List String)
    (customPlaylists : List (String × List String)) : XNode :=
  createFolderNode "AI_GENERATED"
    (aiRootChildren tracks duplicateIds customPlaylists)

/-- `n[':@']?.['@_Name'] === 'AI_GENERATED'` (parser.ts line 409). -/
def isAINode (n : XNode) : Bool :=
  match n.attrs with
  | none => false
  | some a => getAttr a "@_Name" = some "AI_GENERATED"

/-- `children.findIndex(...)` followed by `children.splice(existingIndex, 1)`
(parser.ts lines 409-412): remove the first AI_GENERATED child, if any. -/
def removeFirstAI : List XNode → List XNode
  | [] => []
  | n :: rest => if isAINode n then rest else n :: removeFirstAI rest

/-- Injection into the playlist root node (parser.ts lines 404-420):
remove the first existing AI_GENERATED child, push the fresh one, then
refresh the root's cached `@_Count` — but only when the root carries
an attribute object (`if (rootNode[':@'])`, line 417). -/
def injectAIRoot (ai : XNode) (root : XNode) : XNode :=
  XNode.mk root.tag
    (match root.attrs with
     | none => none
     | some a => some (setAttr a "@_Count"
         (toString (removeFirstAI root.children ++ [ai]).length)))
    (removeFirstAI root.children ++ [ai])

/-- Injection into the PLAYLISTS element (parser.ts lines 398-420): if
no root NODE exists the AI folder is pushed directly into PLAYLISTS,
otherwise the first root NODE receives it. -/
def injectIntoPlaylists (ai : XNode) (pl : XNode) : XNode :=
  match pl.children.find? (fun n => n.tag = "NODE") with
  | none => XNode.mk pl.tag pl.attrs (pl.children ++ [ai])
  | some _ => XNode.mk pl.tag pl.attrs
      (updateFirst (fun n => n.tag = "NODE") (injectAIRoot ai) pl.children)

/-- Injection into the DJ_PLAYLISTS element (parser.ts lines 390-397):
a missing PLAYLISTS element is created empty (no `:@`), receives the
AI folder as its only child and is pushed at the end. -/
def injectIntoDJ (ai : XNode) (dj : XNode) : XNode :=
  match dj.children.find? (fun n => n.tag = "PLAYLISTS") with
  | none => XNode.mk dj.tag dj.attrs
      (dj.children ++ [XNode.mk "PLAYLISTS" none [ai]])
  | some _ => XNode.mk dj.tag dj.attrs
      (updateFirst (fun n => n.tag = "PLAYLISTS") (injectIntoPlaylists ai) dj.children)

/-- Embedding of `generateSmartPlaylists` (parser.ts lines 297-421)
over the preserveOrder document: the source mutates the found nodes in
place, which the model expresses by rebuilding the document along the
find path.  A document without a DJ_PLAYLISTS element is returned
untouched (the early `return` at line 390). -/
def generateSmartPlaylists (fullData : List XNode) (tracks : List Track)
    (duplicateIds : List String)
    (customPlaylists : List (String × List String)) : List XNode :=
  match fullData.find? (fun n => n.tag = "DJ_PLAYLISTS") with
  | none => fullData
  | some _ =>
    updateFirst (fun n => n.tag = "DJ_PLAYLISTS")
      (injectIntoDJ (aiRootNode tracks duplicateIds customPlaylists)) fullData

/-- Bookkeeping check for one node: a Type 0 folder's `@_Count` and a
Type 1 playlist's `@_Entries` must equal the real child count. -/
def countAttrOk (n : XNode) : Bool :=
  match n.attrs with
  | none => true
  | some a =>
    match getAttr a "@_Type" with
    | none => true
    | some t =>
      if t = "0" then getAttr a "@_Count" = some (toString n.children.length)
      else if t = "1" then
        getAttr a "@_Entries" = some (toString n.children.length)
      else true

mutual

/-- Every node of a subtree passes `countAttrOk`. -/
def countsConsistent : XNode → Bool
  | .mk t a cs => countAttrOk (XNode.mk t a cs) && countsConsistentList cs

def countsConsistentList : List XNode → Bool
  | [] => true
  | n :: rest => countsConsistent n && countsConsistentList rest

end

theorem countsConsistentList_append (l1 l2 : List XNode) :
    countsConsistentList (l1 ++ l2) =
      (countsConsistentList l1 && countsConsistentList l2) := by
  induction l1 with
  | nil => simp [countsConsistentList]
  | cons a rest ih => simp [countsConsistentList, ih, Bool.and_assoc]

theorem countsConsistent_track (id : String) :
    countsConsistent (XNode.mk "TRACK" (some [("@_Key", id)]) []) = true := by
  simp [countsConsistent, countsConsistentList, countAttrOk, XNode.attrs, getAttr]

theorem countsConsistentList_tracks (ids : List String) :
    countsConsistentList (ids.map (fun id =>
      XNode.mk "TRACK" (some [("@_Key", id)]) [])) = true := by
  induction ids with
  | nil => rfl
  | cons i rest ih => simp [countsConsistentList, countsConsistent_track, ih]

theorem countsConsistent_playlist (name : String) (ids : List String) :
    countsConsistent (createPlaylistNode name ids) = true := by
  unfold createPlaylistNode
  rw [countsConsistent, countsConsistentList_tracks, Bool.and_true]
  simp [countAttrOk, XNode.attrs, XNode.children, getAttr, List.length_map]

theorem countsConsistent_folder (name : String) (cs : List XNode) :
    countsConsistent (createFolderNode name cs) = countsConsistentList cs := by
  unfold createFolderNode
  rw [countsConsistent]
  have h : countAttrOk (XNode.mk "NODE"
      (some [("@_Name", name), ("@_Type", "0"),
             ("@_Count", toString cs.length)]) cs) = true := by
    simp [countAttrOk, XNode.attrs, XNode.children, getAttr]
  rw [h, Bool.true_and]

theorem countsConsistentList_playlists (keys : List String)
    (m : List (String × List String)) :
    countsConsistentList (keys.map (fun key =>
      createPlaylistNode key (lookupGroup m key))) = true := by
  induction keys with
  | nil => rfl
  | cons k rest ih => simp [countsConsistentList, countsConsistent_playlist, ih]

theorem countsConsistent_subfolder (name : String)
    (m : List (String × List String)) :
    countsConsistent (createSubFolderWithPlaylists name m) = true := by
  unfold createSubFolderWithPlaylists
  rw [countsConsistent_folder]
  exact countsConsistentList_playlists _ _

theorem countsConsistentList_custom (cps : List (String × List String)) :
    countsConsistentList (cps.map (fun cp =>
      createPlaylistNode cp.1 cp.2)) = true := by
  induction cps with
  | nil => rfl
  | cons c rest ih => simp [countsConsistentList, countsConsistent_playlist, ih]

/-- Every folder and playlist that `generateSmartPlaylists` synthesizes
carries a Count or Entries attribute matching its real child count. -/
theorem countsConsistent_aiRoot (tracks : List Track) (duplicateIds : List String)
    (customPlaylists : List (String × List String)) :
    countsConsistent (aiRootNode tracks duplicateIds customPlaylists) = true := by
  unfold aiRootNode
  rw [countsConsistent_folder]
  unfold aiRootChildren
  rw [countsConsistentList_append, countsConsistentList_append]
  have h1 : countsConsistentList
      (if 0 < duplicateIds.length then
        [createPlaylistNode "[POSSIBLE DUPLICATES]" duplicateIds]
      else []) = true := by
    split
    · simp [countsConsistentList, countsConsistent_playlist]
    · rfl
  have h2 : countsConsistentList
      [createSubFolderWithPlaylists "Vibes" (groupInto tracks (fun a => a.vibe)),
       createSubFolderWithPlaylists "Genres" (groupInto tracks (fun a => a.genre)),
       createSubFolderWithPlaylists "Situations"
         (groupInto tracks (fun a => a.situation))] = true := by
    simp [countsConsistentList, countsConsistent_subfolder]
  have h3 : countsConsistentList
      (if 0 < customPlaylists.length then
        [createFolderNode "SAVED_SEARCHES"
          (customPlaylists.map (fun cp => createPlaylistNode cp.1 cp.2))]
      else []) = true := by
    split
    · simp [countsConsistentList, countsConsistent_folder,
        countsConsistentList_custom]
    · rfl
  rw [h1, h2, h3]
  rfl

theorem isAINode_aiRoot (tracks : List Track) (duplicateIds : List String)
    (customPlaylists : List (String × List String)) :
    isAINode (aiRootNode tracks duplicateIds customPlaylists) = true := by
  simp [aiRootNode, createFolderNode, isAINode, XNode.attrs, getAttr]

theorem filter_removeFirstAI (l : List XNode) :
    (l.filter isAINode).length ≤ 1 → (removeFirstAI l).filter isAINode = [] := by
  induction l with
  | nil => intro _; rfl
  | cons a rest ih =>
    intro h
    by_cases ha : isAINode a = true
    · rw [removeFirstAI, if_pos ha]
      have h2 : rest.filter isAINode = [] := by
        simpa [List.filter_cons, ha] using h
      exact h2
    · rw [removeFirstAI, if_neg ha]
      have h2 : (rest.filter isAINode).length ≤ 1 := by
        simpa [List.filter_cons, ha] using h
      simp [List.filter_cons, ha, ih h2]

theorem injectAIRoot_filter (ai root : XNode) (hai : isAINode ai = true)
    (hone : (root.children.filter isAINode).length ≤ 1) :
    (injectAIRoot ai root).children.filter isAINode = [ai] := by
  have hch : (injectAIRoot ai root).children =
      removeFirstAI root.children ++ [ai] := rfl
  rw [hch, List.filter_append, filter_removeFirstAI _ hone]
  simp [List.filter_cons, hai]

theorem find?_updateFirst (p : XNode → Bool) (f : XNode → XNode) (l : List XNode)
    (x : XNode) (hx : l.find? p = some x) (hpf : p (f x) = true) :
    (updateFirst p f l).find? p = some (f x) := by
  induction l with
  | nil => simp [List.find?] at hx
  | cons a rest ih =>
    by_cases ha : p a = true
    · rw [List.find?_cons_of_pos _ ha] at hx
      rw [Option.some.injEq] at hx
      subst hx
      rw [updateFirst, if_pos ha]
      exact List.find?_cons_of_pos _ hpf
    · rw [List.find?_cons_of_neg _ ha] at hx
      rw [updateFirst, if_neg ha, List.find?_cons_of_neg _ ha]
      exact ih hx

theorem injectAIRoot_tag (ai root : XNode) :
    (injectAIRoot ai root).tag = root.tag := rfl

theorem injectIntoPlaylists_tag (ai pl : XNode) :
    (injectIntoPlaylists ai pl).tag = pl.tag := by
  unfold injectIntoPlaylists
  split <;> rfl

theorem injectIntoDJ_tag (ai dj : XNode) :
    (injectIntoDJ ai dj).tag = dj.tag := by
  unfold injectIntoDJ
  split <;> rfl

theorem injectIntoDJ_children (ai dj pl : XNode)
    (hpl : dj.children.find? (fun n => n.tag = "PLAYLISTS") = some pl) :
    (injectIntoDJ ai dj).children =
      updateFirst (fun n => n.tag = "PLAYLISTS") (injectIntoPlaylists ai)
        dj.children := by
  unfold injectIntoDJ
  rw [hpl]
  rfl

theorem injectIntoPlaylists_children (ai pl root : XNode)
    (hroot : pl.children.find? (fun n => n.tag = "NODE") = some root) :
    (injectIntoPlaylists ai pl).children =
      updateFirst (fun n => n.tag = "NODE") (injectAIRoot ai) pl.children := by
  unfold injectIntoPlaylists
  rw [hroot]
  rfl

/-- C9: when the document navigates to a playlist root holding at most
one AI_GENERATED child, `generateSmartPlaylists` leaves that root with
exactly one AI_GENERATED child, namely the folder freshly built from
the current tracks (the old one is removed, not merged); when the root
carries an attribute object its `@_Count` is set to the new child
count; and every synthesized folder and playlist carries a Count or
Entries attribute equal to its real child count.  When the root has no
attribute object, no Count attribute is written at all (see the
counterexample). -/
theorem generateSmartPlaylists_spec (fullData : List XNode) (tracks : List Track)
    (duplicateIds : List String) (customPlaylists : List (String × List String))
    (dj pl root : XNode)
    (hdj : fullData.find? (fun n => n.tag = "DJ_PLAYLISTS") = some dj)
    (hpl : dj.children.find? (fun n => n.tag = "PLAYLISTS") = some pl)
    (hroot : pl.children.find? (fun n => n.tag = "NODE") = some root)
    (hone : (root.children.filter isAINode).length ≤ 1) :
    (((generateSmartPlaylists fullData tracks duplicateIds customPlaylists).find?
        (fun n => n.tag = "DJ_PLAYLISTS")).bind
      (fun d => (d.children.find? (fun n => n.tag = "PLAYLISTS")).bind
        (fun p2 => p2.children.find? (fun n => n.tag = "NODE"))) =
      some (injectAIRoot (aiRootNode tracks duplicateIds customPlaylists) root))
    ∧ ((injectAIRoot (aiRootNode tracks duplicateIds customPlaylists) root).children =
        removeFirstAI root.children ++ [aiRootNode tracks duplicateIds customPlaylists])
    ∧ ((injectAIRoot (aiRootNode tracks duplicateIds customPlaylists)
        root).children.filter isAINode =
        [aiRootNode tracks duplicateIds customPlaylists])
    ∧ (∀ a, root.attrs = some a →
        (injectAIRoot (aiRootNode tracks duplicateIds customPlaylists) root).attrs =
          some (setAttr a "@_Count" (toString
            ((injectAIRoot (aiRootNode tracks duplicateIds customPlaylists)
              root).children.length))))
    ∧ countsConsistent (aiRootNode tracks duplicateIds customPlaylists) = true := by
  refine ⟨?_, rfl,
    injectAIRoot_filter _ _ (isAINode_aiRoot _ _ _) hone, ?_,
    countsConsistent_aiRoot _ _ _⟩
  · have hdjtag : dj.tag = "DJ_PLAYLISTS" := by
      simpa using List.find?_some hdj
    have hpltag : pl.tag = "PLAYLISTS" := by
      simpa using List.find?_some hpl
    have hroottag : root.tag = "NODE" := by
      simpa using List.find?_some hroot
    unfold generateSmartPlaylists
    rw [hdj]
    rw [find?_updateFirst _ _ _ _ hdj (by simp [injectIntoDJ_tag, hdjtag])]
    rw [Option.some_bind]
    rw [injectIntoDJ_children _ _ _ hpl]
    rw [find?_updateFirst _ _ _ _ hpl (by simp [injectIntoPlaylists_tag, hpltag])]
    rw [Option.some_bind]
    rw [injectIntoPlaylists_children _ _ _ hroot]
    exact find?_updateFirst _ _ _ _ hroot (by simp [injectAIRoot_tag, hroottag])
  · intro a ha
    obtain ⟨rt, rattrs, rcs⟩ := root
    simp only [XNode.attrs] at ha
    subst ha
    simp [injectAIRoot, XNode.attrs, XNode.children, XNode.tag]

def c9nRoot : XNode := XNode.mk "NODE" none []

def c9nDoc : List XNode :=
  [XNode.mk "DJ_PLAYLISTS" none [XNode.mk "PLAYLISTS" none [c9nRoot]]]

/-- Counterexample to C9 as stated: when the playlist root node carries
no attribute object, the `if (rootNode[':@'])` guard (parser.ts line
417) skips the Count refresh, so after the call the root has one child
but no `@_Count` attribute at all — the count and the child list do
drift apart. -/
theorem generateSmartPlaylists_count_counterexample :
    (((generateSmartPlaylists c9nDoc [] [] []).find?
        (fun n => n.tag = "DJ_PLAYLISTS")).bind
      (fun d => (d.children.find? (fun n => n.tag = "PLAYLISTS")).bind
        (fun p2 => p2.children.find? (fun n => n.tag = "NODE"))) =
      some (XNode.mk "NODE" none [aiRootNode [] [] []]))
    ∧ (XNode.mk "NODE" none [aiRootNode [] [] []]).children.length = 1
    ∧ (XNode.mk "NODE" none [aiRootNode [] [] []]).attrs = none := by
  decide

def c9wOldAI : XNode :=
  XNode.mk "NODE"
    (some [("@_Name", "AI_GENERATED"), ("@_Type", "0"), ("@_Count", "0")]) []

def c9wOther : XNode :=
  XNode.mk "NODE"
    (some [("@_Name", "My Crate"), ("@_Type", "0"), ("@_Count", "0")]) []

def c9wRoot : XNode :=
  XNode.mk "NODE" (some [("@_Type", "0"), ("@_Name", "ROOT"), ("@_Count", "2")])
    [c9wOldAI, c9wOther]

def c9wPL : XNode := XNode.mk "PLAYLISTS" (some [("@_Version", "1.0")]) [c9wRoot]

def c9wDJ : XNode := XNode.mk "DJ_PLAYLISTS" none [c9wPL]

def c9wDoc : List XNode := [c9wDJ]

def c9wTrack : Track :=
  { TrackID := "7", Name := "Song", Artist := "A",
    Analysis := some { vibe := "Dark", genre := "Trap", situation := "Rooftop" } }

/-- Witness for `generateSmartPlaylists_spec` on a concrete document
whose root already holds one AI_GENERATED folder. -/
theorem generateSmartPlaylists_spec_witness :
    (c9wDoc.find? (fun n => n.tag = "DJ_PLAYLISTS") = some c9wDJ
    ∧ c9wDJ.children.find? (fun n => n.tag = "PLAYLISTS") = some c9wPL
    ∧ c9wPL.children.find? (fun n => n.tag = "NODE") = some c9wRoot
    ∧ (c9wRoot.children.filter isAINode).length ≤ 1)
    ∧ ((((generateSmartPlaylists c9wDoc [c9wTrack] [] []).find?
        (fun n => n.tag = "DJ_PLAYLISTS")).bind
      (fun d => (d.children.find? (fun n => n.tag = "PLAYLISTS")).bind
        (fun p2 => p2.children.find? (fun n => n.tag = "NODE"))) =
      some (injectAIRoot (aiRootNode [c9wTrack] [] []) c9wRoot))
    ∧ ((injectAIRoot (aiRootNode [c9wTrack] [] []) c9wRoot).children =
        removeFirstAI c9wRoot.children ++ [aiRootNode [c9wTrack] [] []])
    ∧ ((injectAIRoot (aiRootNode [c9wTrack] [] [])
        c9wRoot).children.filter isAINode = [aiRootNode [c9wTrack] [] []])
    ∧ (∀ a, c9wRoot.attrs = some a →
        (injectAIRoot (aiRootNode [c9wTrack] [] []) c9wRoot).attrs =
          some (setAttr a "@_Count" (toString
            ((injectAIRoot (aiRootNode [c9wTrack] [] [])
              c9wRoot).children.length))))
    ∧ countsConsistent (aiRootNode [c9wTrack] [] []) = true) :=
  ⟨⟨by decide, by decide, by decide, by decide⟩,
   generateSmartPlaylists_spec c9wDoc [c9wTrack] [] [] c9wDJ c9wPL c9wRoot
     (by decide) (by decide) (by decide) (by decide)⟩

end CrateBatch
